import Mathlib

/-
Verification development for the ConfigBound configuration-binding library.

The TypeScript core is shallowly embedded here:
  * runtime configuration values are the inductive `Value`
    (JavaScript numbers are split into exact integers and exact decimal
    rationals: `Number.parseInt` on `-?\d+` / `Number.parseFloat` on
    `-?\d+\.\d+` are idealised as exact arithmetic, and composite JSON
    results are abstracted behind a parse function passed as a parameter);
  * the external Joi validator is modelled by its documented interface,
    `validate : Value -> { value, error? }` plus the required-presence flag;
  * throwing code is embedded as `Except ConfigError`;
  * `process.env` and `JSON.parse` are ambient external functions and are
    passed explicitly to the environment-variable bind;
  * loggers are write-only observers and are dropped from the model.
-/

set_option maxRecDepth 4000

namespace CB

/-- Runtime configuration values flowing through the library.  Scalars are
modelled exactly; JSON arrays and objects never have their shape inspected by
the core, so any value returned by the abstract JSON parser is adequate. -/
inductive Value where
  | vInt (n : Int)
  | vFloat (q : Rat)
  | vBool (b : Bool)
  | vStr (s : String)
  | vNull
  deriving Repr, DecidableEq

/-- JavaScript truthiness of a `Value` (used by `if (defaultValue)`-style
tests in the source): 0, 0.0, false, the empty string and null are falsy. -/
def Value.truthy : Value → Bool
  | .vInt n => n != 0
  | .vFloat q => q != 0
  | .vBool b => b
  | .vStr s => s != ""
  | .vNull => false

/-- Result record of the external validation rule, per the documented Joi
contract `validate(candidate) -> { value, error? }`: on success `value` may be
a normalised (coerced/trimmed) form of the candidate. -/
structure ValidationResult where
  value : Value
  error : Option String

/-- The external Joi validation rule, modelled at its interface boundary:
a validation function plus the required-presence flag that
`Element.isRequired` reads from `validator._flags.presence`. -/
structure Validator where
  validate : Value → ValidationResult
  requiredPresence : Bool

/-- Model of `Joi.any()`, the default validator used by the schema builder:
it accepts every value unchanged and is not required. -/
def joiAny : Validator where
  validate := fun v => ⟨v, none⟩
  requiredPresence := false

/-- Error taxonomy of `utilities/errors.ts`, plus `jsError` for the plain
`Error` thrown by `Element.get` on an unattached element. -/
inductive ConfigError where
  | invalidName (msg : String)
  | configInvalid (elementName : String) (msg : String)
  | configUnset (elementName : String)
  | sectionExists (name : String)
  | elementExists (name : String)
  | sectionNotFound (name : String)
  | elementNotFound (name : String)
  | jsError (msg : String)
  deriving Repr, DecidableEq

/-- Message text of each error, following `utilities/errors.ts`.  For
`ConfigValueException` subclasses the optional detail is appended only when
truthy (a nonempty string), matching `if (message)` in the source. -/
def ConfigError.message : ConfigError → String
  | .invalidName msg => msg
  | .configInvalid elementName msg =>
      if msg = "" then "Invalid value for " ++ elementName
      else "Invalid value for " ++ elementName ++ ": " ++ msg
  | .configUnset elementName => "Value unset for " ++ elementName
  | .sectionExists name => "Section with name " ++ name ++ " already exists."
  | .elementExists name => "Element with name " ++ name ++ " already exists."
  | .sectionNotFound name => "Section with name " ++ name ++ " not found."
  | .elementNotFound name => "Element with name " ++ name ++ " not found."
  | .jsError msg => msg

/-! ### Naming sanitizer (`utilities/sanitizeNames.ts`) -/

/-- ASCII alphanumeric characters, the class `[a-zA-Z0-9]` of the source's
name-validation regex. -/
def isAlnumChar (c : Char) : Bool :=
  (decide (97 ≤ c.toNat) && decide (c.toNat ≤ 122)) ||
  (decide (65 ≤ c.toNat) && decide (c.toNat ≤ 90)) ||
  (decide (48 ≤ c.toNat) && decide (c.toNat ≤ 57))

/-- The class `[a-zA-Z0-9_.-]` of the source's name-validation regex. -/
def isNameChar (c : Char) : Bool :=
  isAlnumChar c || c == '_' || c == '.' || c == '-'

/-- Whitespace stripped by `String.prototype.trim` (restricted to the ASCII
whitespace characters — space, tab, line feed, carriage return, form feed,
vertical tab; the model never feeds exotic Unicode spaces). -/
def isJsWhitespace (c : Char) : Bool :=
  decide (c.toNat = 32) || decide (c.toNat = 9) || decide (c.toNat = 10) ||
  decide (c.toNat = 13) || decide (c.toNat = 12) || decide (c.toNat = 11)

/-- Model of `String.prototype.trim`: strip whitespace from both ends. -/
def jsTrim (s : String) : String :=
  ⟨((s.data.dropWhile isJsWhitespace).reverse.dropWhile isJsWhitespace).reverse⟩

/-- The language of the source regex
`^[a-zA-Z0-9]+([a-zA-Z0-9_.-])*[a-zA-Z0-9]+$`, stated as the literal
decomposition the regex syntax describes. -/
def nameRegexLang (s : String) : Prop :=
  ∃ a m b : List Char,
    s.data = a ++ m ++ b ∧
    a ≠ [] ∧ (∀ c ∈ a, isAlnumChar c) ∧
    (∀ c ∈ m, isNameChar c) ∧
    b ≠ [] ∧ (∀ c ∈ b, isAlnumChar c)

/-- Executable membership test for `nameRegexLang` (proved equivalent in
`nameValidationMatch_iff`): at least two characters, alphanumeric first and
last characters, every character drawn from `[a-zA-Z0-9_.-]`. -/
def nameValidationMatch (s : String) : Bool :=
  match s.data.head?, s.data.getLast? with
  | some c₀, some c₁ =>
      decide (2 ≤ s.data.length) && isAlnumChar c₀ && isAlnumChar c₁ &&
        s.data.all isNameChar
  | _, _ => false

/-- Model of `sanitizeName`: trim, test against the name regex, return the
trimmed name or fail with `InvalidNameException`. -/
def sanitizeName (name : String) : Except ConfigError String :=
  if nameValidationMatch (jsTrim name) then .ok (jsTrim name)
  else .error (.invalidName ("\"" ++ name ++ "\" is not a valid name."))

theorem isNameChar_of_isAlnumChar {c : Char} (h : isAlnumChar c) :
    isNameChar c := by
  simp [isNameChar, h]

/-- Certification that the executable test decides exactly the language of
the source regex. -/
theorem nameValidationMatch_iff (s : String) :
    nameValidationMatch s = true ↔ nameRegexLang s := by
  constructor
  · intro h
    unfold nameValidationMatch at h
    rcases hh : s.data.head? with _ | c₀ <;> rw [hh] at h
    · simp at h
    rcases hl : s.data.getLast? with _ | c₁ <;> rw [hl] at h
    · simp at h
    simp only [Bool.and_eq_true, decide_eq_true_eq, List.all_eq_true] at h
    obtain ⟨⟨⟨hlen, ha₀⟩, ha₁⟩, hall⟩ := h
    rcases hd : s.data with _ | ⟨x, xs⟩
    · rw [hd] at hh; exact absurd hh (by simp)
    rw [hd] at hh hl hlen hall
    rw [List.head?_cons, Option.some_inj] at hh
    subst hh
    have hxs : xs ≠ [] := by
      rcases xs with _ | ⟨y, ys⟩
      · simp at hlen
      · simp
    rw [List.getLast?_eq_getLast _ (List.cons_ne_nil _ _), Option.some_inj,
      List.getLast_cons hxs] at hl
    have hxsdec : xs = xs.dropLast ++ [c₁] := by
      rw [← hl]
      exact (List.dropLast_append_getLast hxs).symm
    refine ⟨[x], xs.dropLast, [c₁], ?_, by simp, ?_, ?_, by simp, ?_⟩
    · rw [hd]
      conv_lhs => rw [hxsdec]
      simp
    · intro c hc
      rw [List.mem_singleton] at hc
      subst hc
      exact ha₀
    · intro c hc
      exact hall c (List.mem_cons_of_mem _ (List.dropLast_subset _ hc))
    · intro c hc
      rw [List.mem_singleton] at hc
      subst hc
      exact ha₁
  · rintro ⟨a, m, b, hdec, hane, haal, hmal, hbne, hbal⟩
    rcases a with _ | ⟨a₀, arest⟩
    · exact absurd rfl hane
    rcases hbsplit : b.reverse with _ | ⟨b₁, brest⟩
    · exact absurd (by simpa using congrArg List.reverse hbsplit) hbne
    have hb : b = brest.reverse ++ [b₁] := by
      have := congrArg List.reverse hbsplit
      simpa using this
    have hh : s.data.head? = some a₀ := by rw [hdec]; rfl
    have hl : s.data.getLast? = some b₁ := by
      rw [hdec, hb, ← List.append_assoc]
      exact List.getLast?_concat _
    unfold nameValidationMatch
    rw [hh, hl]
    show (decide (2 ≤ s.data.length) && isAlnumChar a₀ && isAlnumChar b₁ &&
      s.data.all isNameChar) = true
    simp only [Bool.and_eq_true, decide_eq_true_eq, List.all_eq_true]
    refine ⟨⟨⟨?_, ?_⟩, ?_⟩, ?_⟩
    · rw [hdec, hb]
      simp only [List.length_append, List.length_cons, List.length_reverse,
        List.length_nil]
      omega
    · exact haal a₀ (by simp)
    · exact hbal b₁ (by rw [hb]; simp)
    · intro c hc
      rw [hdec] at hc
      rcases List.mem_append.mp hc with hc | hc
      · rcases List.mem_append.mp hc with hc | hc
        · exact isNameChar_of_isAlnumChar (haal c hc)
        · exact hmal c hc
      · exact isNameChar_of_isAlnumChar (hbal c hc)

/-! ### Element (`element/element.ts`) -/

/-- A single named configuration leaf.  `value` is the optional locally set
value, `sectionName` the back-reference filled in by `Section.addElement`,
and `exampleValue` the source's `example` field (renamed because `example`
is a Lean keyword).  The `omitFromSchema` flag is stored as-is per the
documented constructor; it never influences resolution. -/
structure Element where
  name : String
  description : Option String := none
  default : Option Value := none
  exampleValue : Option Value := none
  sensitive : Bool := false
  omitFromSchema : Bool := false
  validator : Validator := joiAny
  value : Option Value := none
  sectionName : Option String := none

/-- The default-value check of the `Element` constructor: the source guards
with `if (defaultValue)`, so only a truthy default is validated; a truthy
default the validator rejects raises
`ConfigInvalidException(name, validatorMessage)`. -/
def validateDefault (n : String) (defaultValue : Option Value)
    (validator : Validator) : Except ConfigError Unit :=
  match defaultValue with
  | some d =>
    if d.truthy then
      match (validator.validate d).error with
      | some msg => .error (.configInvalid n msg)
      | none => .ok ()
    else .ok ()
  | none => .ok ()

/-- Model of the `Element` constructor: sanitize the name; run the
default-value check (`validateDefault`); store all fields as-is.  The
example value is never validated. -/
def Element.make (name : String) (description : Option String)
    (defaultValue : Option Value) (exampleValue : Option Value)
    (sensitive : Bool) (omitFromSchema : Bool) (validator : Validator) :
    Except ConfigError Element :=
  match sanitizeName name with
  | .error e => .error e
  | .ok n =>
    match validateDefault n defaultValue validator with
    | .error e => .error e
    | .ok _ => .ok
        { name := n, description := description,
          default := defaultValue, exampleValue := exampleValue,
          sensitive := sensitive, omitFromSchema := omitFromSchema,
          validator := validator }

/-- Model of `Element.isRequired`: reads the validator's presence flag. -/
def Element.isRequired (e : Element) : Bool :=
  e.validator.requiredPresence

/-- Model of `Element.setParentSection`. -/
def Element.setParentSection (e : Element) (sectionName : String) : Element :=
  { e with sectionName := some sectionName }

/-- Model of `Element.set`: validate, fail with `ConfigInvalidException` on
error, else store `result.value ?? default`. -/
def Element.set (e : Element) (v : Option Value) : Except ConfigError Element :=
  match v with
  | none => .ok { e with value := e.default }
  | some v =>
    let result := e.validator.validate v
    match result.error with
    | some msg => .error (.configInvalid e.name msg)
    | none => .ok { e with value := some result.value }

/-- Model of `Element.get`: return the locally set value when present;
otherwise fail with a plain `Error` when the element is not attached to a
section; otherwise return the bind context's value when defined, else the
default when defined, else undefined. -/
def Element.get (e : Element) (bindContext : String → String → Option Value) :
    Except ConfigError (Option Value) :=
  match e.value with
  | some v => .ok (some v)
  | none =>
    match e.sectionName with
    | none => .error (.jsError (e.name ++ " is not associated with any section"))
    | some sn =>
      match bindContext sn e.name with
      | some contextValue => .ok (some contextValue)
      | none =>
        match e.default with
        | some d => .ok (some d)
        | none => .ok none

/-- Model of `Element.getOrThrow`: like `get` but an undefined result becomes
`ConfigUnsetException`. -/
def Element.getOrThrow (e : Element)
    (bindContext : String → String → Option Value) :
    Except ConfigError Value :=
  match e.get bindContext with
  | .error err => .error err
  | .ok none => .error (.configUnset e.name)
  | .ok (some v) => .ok v

/-! ### Section (`section/section.ts`) -/

/-- A named, ordered collection of elements.  The value-provider
back-reference and logger wiring of the source are observers that do not
affect the resolution semantics modelled here. -/
structure Section where
  name : String
  description : Option String := none
  elements : List Element := []

/-- Model of `Section.findDuplicateElements`: count the occurrences of every
name (the source folds the array into a name-count record), then return, in
order, every element whose name occurs more than once. -/
def findDuplicateElements (elements : List Element) : List Element :=
  elements.filter
    (fun e => 1 < (elements.filter (fun x => x.name == e.name)).length)

/-- Model of `Section.addElement`: reject with `ElementExistsException` when
appending the new element produces a duplicate name, otherwise store the
appended list, with the element's parent-section back-reference set. -/
def Section.addElement (sec : Section) (element : Element) :
    Except ConfigError Section :=
  match findDuplicateElements (sec.elements ++ [element]) with
  | d :: _ => .error (.elementExists d.name)
  | [] => .ok { sec with
      elements := sec.elements ++ [element.setParentSection sec.name] }

/-- Model of `Section.setElements`: reject the whole list with
`ElementExistsException` when it contains duplicate names (before touching
the stored elements), otherwise clear and re-add every element in order. -/
def Section.setElements (sec : Section) (elements : List Element) :
    Except ConfigError Section :=
  match findDuplicateElements elements with
  | d :: _ => .error (.elementExists d.name)
  | [] => elements.foldlM (fun s e => s.addElement e)
      { sec with elements := [] }

/-- Model of the `Section` constructor: sanitize the name, then install the
initial elements through `setElements` when the list is nonempty. -/
def Section.make (name : String) (elements : List Element)
    (description : Option String) : Except ConfigError Section :=
  match sanitizeName name with
  | .error e => .error e
  | .ok n =>
    if elements.isEmpty then .ok { name := n, description := description }
    else Section.setElements { name := n, description := description } elements

/-- Model of `Section.getElements`. -/
def Section.getElements (sec : Section) : List Element :=
  sec.elements

/-- Model of `Section.getElement`: first element with the given name. -/
def Section.getElement (sec : Section) (elementName : String) :
    Option Element :=
  sec.elements.find? (fun e => e.name == elementName)

/-! ### Bind (`bind/bind.ts`) -/

/-- A source adapter: a fixed name tag plus the adapter-specific `retrieve`
on a fully-qualified `section.element` path. -/
structure Bind where
  name : String
  retrieve : String → Option Value

/-- Model of `Bind.get`: join the two names with a dot and retrieve. -/
def Bind.get (b : Bind) (sectionName elementName : String) : Option Value :=
  b.retrieve (sectionName ++ "." ++ elementName)

/-! ### ConfigBound (`configBound.ts`, container and resolution algorithm) -/

/-- The top-level container: a sanitized name, the ordered bind list and the
ordered section list. -/
structure ConfigBound where
  name : String
  binds : List Bind := []
  sections : List Section := []

/-- Model of `ConfigBound.addBind`: append. -/
def ConfigBound.addBind (cb : ConfigBound) (bind : Bind) : ConfigBound :=
  { cb with binds := cb.binds ++ [bind] }

/-- Model of `ConfigBound.addSection`: sanitize the section's name, fail with
`SectionExistsException` when a stored section already carries it, else
append (the provider/logger wiring of the source carries no resolution
state). -/
def ConfigBound.addSection (cb : ConfigBound) (sec : Section) :
    Except ConfigError ConfigBound :=
  match sanitizeName sec.name with
  | .error e => .error e
  | .ok sanitizedName =>
    if cb.sections.any (fun x => x.name == sanitizedName) then
      .error (.sectionExists sanitizedName)
    else .ok { cb with sections := cb.sections ++ [sec] }

/-- Model of the `ConfigBound` constructor: sanitize the name, start with no
sections, then add each initial section through `addSection`. -/
def ConfigBound.make (name : String) (binds : List Bind)
    (sections : List Section) : Except ConfigError ConfigBound :=
  match sanitizeName name with
  | .error e => .error e
  | .ok n =>
    sections.foldlM (fun cb s => cb.addSection s)
      { name := n, binds := binds, sections := [] }

/-- Model of `ConfigBound.getSections`. -/
def ConfigBound.getSections (cb : ConfigBound) : List Section :=
  cb.sections

/-- First defined value over the bind list, in insertion order; this is the
`for (const bind of this.binds)` loop of `ConfigBound.get`, which stops at
the first bind whose `get` is defined. -/
def tryBinds : List Bind → String → String → Option Value
  | [], _, _ => none
  | b :: rest, sectionName, elementName =>
    match b.get sectionName elementName with
    | some v => some v
    | none => tryBinds rest sectionName elementName

/-- Model of `ConfigBound.get`: resolve the section (else
`SectionNotFoundException`) and the element (else
`ElementNotFoundException`); the first bind returning a defined value has it
validated — failure raises `ConfigInvalidException` on the dotted path,
success returns the validator's (possibly transformed) value; with no bind
value the default is returned when defined, else undefined. -/
def ConfigBound.get (cb : ConfigBound) (sectionName elementName : String) :
    Except ConfigError (Option Value) :=
  match cb.sections.find? (fun x => x.name == sectionName) with
  | none => .error (.sectionNotFound sectionName)
  | some sec =>
    match sec.getElements.find? (fun x => x.name == elementName) with
    | none => .error (.elementNotFound elementName)
    | some element =>
      match tryBinds cb.binds sectionName elementName with
      | some value =>
        match (element.validator.validate value).error with
        | some msg =>
          .error (.configInvalid (sectionName ++ "." ++ elementName) msg)
        | none => .ok (some (element.validator.validate value).value)
      | none =>
        match element.default with
        | some d => .ok (some d)
        | none => .ok none

/-- Model of `ConfigBound.getOrThrow`: an undefined `get` result becomes
`ElementNotFoundException`. -/
def ConfigBound.getOrThrow (cb : ConfigBound)
    (sectionName elementName : String) : Except ConfigError Value :=
  match cb.get sectionName elementName with
  | .error e => .error e
  | .ok none => .error (.elementNotFound elementName)
  | .ok (some v) => .ok v

/-- An entry of the validation-error report: dotted path plus message. -/
structure ValidationEntry where
  path : String
  message : String
  deriving Repr, DecidableEq

/-- One iteration of the inner loop of `ConfigBound.getValidationErrors`:
call `get` for one element; record a "Required value is not set" entry when
a required element resolves to undefined; catch `ConfigInvalidException` and
record its message; re-raise any other error. -/
def recordElement (cb : ConfigBound) (sec : Section)
    (acc : List ValidationEntry) (el : Element) :
    Except ConfigError (List ValidationEntry) :=
  match cb.get sec.name el.name with
  | .error (.configInvalid p m) =>
    .ok (acc ++ [⟨sec.name ++ "." ++ el.name,
      (ConfigError.configInvalid p m).message⟩])
  | .error e => .error e
  | .ok v =>
    if el.isRequired && v.isNone then
      .ok (acc ++ [⟨sec.name ++ "." ++ el.name,
        "Required value is not set"⟩])
    else .ok acc

/-- One iteration of the outer loop of `ConfigBound.getValidationErrors`:
walk one section's elements in order. -/
def recordSection (cb : ConfigBound) (acc : List ValidationEntry)
    (sec : Section) : Except ConfigError (List ValidationEntry) :=
  sec.getElements.foldlM (recordElement cb sec) acc

/-- Model of `ConfigBound.getValidationErrors`: walk every section/element in
order accumulating the entries recorded by `recordElement`. -/
def ConfigBound.getValidationErrors (cb : ConfigBound) :
    Except ConfigError (List ValidationEntry) :=
  cb.sections.foldlM (recordSection cb) []

/-- Composite message of `ConfigBound.validate`, exactly as formatted by the
source: a count line followed by one "  - path: message" line per error. -/
def compositeMessage (errors : List ValidationEntry) : String :=
  "Validation failed for " ++ toString errors.length ++ " value(s):\n" ++
    String.intercalate "\n"
      (errors.map (fun e => "  - " ++ e.path ++ ": " ++ e.message))

/-- Model of `ConfigBound.validate`: collect the validation errors and, when
the list is nonempty, raise one composite `ConfigInvalidException` on the
path "configuration" listing every entry. -/
def ConfigBound.validate (cb : ConfigBound) : Except ConfigError Unit :=
  match cb.getValidationErrors with
  | .error e => .error e
  | .ok errors =>
    if 0 < errors.length then
      .error (.configInvalid "configuration" (compositeMessage errors))
    else .ok ()

/-! ### Environment-variable bind (`bind/binds/envVar.ts`) -/

/-- ASCII upper-casing, the model of `String.prototype.toUpperCase` on the
ASCII names this library produces. -/
def toUpperAscii (s : String) : String :=
  ⟨s.data.map (fun c =>
    if decide (97 ≤ c.toNat) && decide (c.toNat ≤ 122) then
      Char.ofNat (c.toNat - 32)
    else c)⟩

/-- ASCII lower-casing, the model of `String.prototype.toLowerCase` used by
the boolean-literal coercion. -/
def toLowerAscii (s : String) : String :=
  ⟨s.data.map (fun c =>
    if decide (65 ≤ c.toNat) && decide (c.toNat ≤ 90) then
      Char.ofNat (c.toNat + 32)
    else c)⟩

/-- Decimal digit test, the `\d` class of the coercion regexes. -/
def isDigitChar (c : Char) : Bool :=
  decide (48 ≤ c.toNat) && decide (c.toNat ≤ 57)

/-- Strip one optional leading minus sign (the `-?` of the coercion
regexes). -/
def stripMinus : List Char → List Char
  | '-' :: rest => rest
  | l => l

/-- Nonempty all-digit run, the `\d+` of the coercion regexes. -/
def digits1 (l : List Char) : Bool :=
  !l.isEmpty && l.all isDigitChar

/-- Split a character list on the dot character. -/
def splitOnDot : List Char → List (List Char)
  | [] => [[]]
  | c :: rest =>
    let r := splitOnDot rest
    if c = '.' then [] :: r
    else
      match r with
      | h :: t => (c :: h) :: t
      | [] => [[c]]

/-- The language of `^-?\d+$` (integer pattern). -/
def intPattern (s : String) : Bool :=
  digits1 (stripMinus s.data)

/-- The language of `^-?\d+\.\d+$` (float pattern): after the optional
minus, a digit run, one dot, a digit run. -/
def floatPattern (s : String) : Bool :=
  match splitOnDot (stripMinus s.data) with
  | [a, b] => digits1 a && digits1 b
  | _ => false

/-- The language of the source's combined number regex `^-?\d+(\.\d+)?$`,
which is exactly the union of the integer and float patterns. -/
def numberPattern (s : String) : Bool :=
  intPattern s || floatPattern s

/-- Decimal digits to a natural number. -/
def digitsToNat (l : List Char) : Nat :=
  l.foldl (fun acc c => acc * 10 + (c.toNat - 48)) 0

/-- Model of `Number.parseInt(value, 10)` on a string matching `^-?\d+$`,
idealised as exact integer arithmetic. -/
def parseIntDec (s : String) : Int :=
  match s.data with
  | '-' :: rest => -(digitsToNat rest : Int)
  | l => (digitsToNat l : Int)

/-- Model of `Number.parseFloat` on a string matching `^-?\d+\.\d+$`,
idealised as the exact decimal rational the literal denotes. -/
def parseFloatDec (s : String) : Rat :=
  let signed := s.data
  let negative : Bool := match signed with
    | '-' :: _ => true
    | _ => false
  match splitOnDot (stripMinus signed) with
  | [a, b] =>
    let mag : Rat := (digitsToNat a : Rat) + (digitsToNat b : Rat) / ((10 : Rat) ^ b.length)
    if negative then -mag else mag
  | _ => 0

/-- True when the string is delimited by square brackets or curly braces,
the JSON-attempt guard of `convertValue`. -/
def bracketDelimited (s : String) : Bool :=
  (s.data.head? == some '[' && s.data.getLast? == some ']') ||
  (s.data.head? == some (Char.ofNat 123) && s.data.getLast? == some (Char.ofNat 125))

/-- Model of `EnvVarBind.convertValue`, parameterised by the external
`JSON.parse` (returning `none` on a parse error): number pattern first
(integer sub-case before float), then case-insensitive boolean literals,
then a JSON attempt for bracket/brace-delimited strings falling back to the
raw string, else the raw string. -/
def convertValue (jsonParse : String → Option Value) (value : String) : Value :=
  if numberPattern value then
    if intPattern value then .vInt (parseIntDec value)
    else .vFloat (parseFloatDec value)
  else if toLowerAscii value = "true" then .vBool true
  else if toLowerAscii value = "false" then .vBool false
  else if bracketDelimited value then
    match jsonParse value with
    | some j => j
    | none => .vStr value
  else .vStr value

/-- The environment-variable bind's static configuration: an optional
prefix (source field `envVarPrefix`, renamed for this file) or an optional
custom naming function, mutually exclusive. -/
structure EnvVarBind where
  envVarPre : Option String := none
  customEnvVarName : Option (String → String) := none

/-- Model of the `EnvVarBind` constructor: supplying a truthy prefix
together with a custom naming function is a fatal configuration error. -/
def EnvVarBind.make (pre : Option String)
    (custom : Option (String → String)) : Except ConfigError EnvVarBind :=
  let preTruthy : Bool := match pre with
    | some p => p != ""
    | none => false
  if preTruthy && custom.isSome then
    .error (.configInvalid "EnvVarBind"
      "Cannot specify both prefix and customEnvVarName. They are mutually exclusive.")
  else .ok { envVarPre := pre, customEnvVarName := custom }

/-- Model of `EnvVarBind.getEnvVarName`: replace dots with underscores,
prepend a truthy prefix with an underscore, upper-case. -/
def EnvVarBind.getEnvVarName (b : EnvVarBind) (elementPath : String) : String :=
  let name : String := ⟨elementPath.data.map (fun c => if c = '.' then '_' else c)⟩
  let name := match b.envVarPre with
    | some p => if p != "" then p ++ "_" ++ name else name
    | none => name
  toUpperAscii name

/-- Model of `EnvVarBind.retrieve`, with `process.env` and `JSON.parse`
passed as ambient external functions: an absent variable yields `none`
(unset, never an error); a present string is coerced by `convertValue`. -/
def EnvVarBind.retrieve (b : EnvVarBind) (env : String → Option String)
    (jsonParse : String → Option Value) (fullName : String) : Option Value :=
  let envVarName := match b.customEnvVarName with
    | some f => f fullName
    | none => b.getEnvVarName fullName
  match env envVarName with
  | none => none
  | some envVarValue => some (convertValue jsonParse envVarValue)

/-! ### Schema builder (`ConfigBoundBuilder` in `configBound.ts`) -/

/-- A schema-literal item spec (`ConfigItem`): the optional attributes of a
single element. -/
structure ConfigItem where
  default : Option Value := none
  description : Option String := none
  exampleValue : Option Value := none
  sensitive : Option Bool := none
  omitFromSchema : Option Bool := none
  validator : Option Validator := none

/-- A schema-literal entry: a section spec is any node carrying a
`properties` key, every other node is an item spec (the source's duck-typed
`'properties' in config` dispatch, made a tagged union). -/
inductive SchemaEntry where
  | item (config : ConfigItem)
  | sectionSpec (description : Option String)
      (properties : List (String × ConfigItem))

/-- A schema literal: keys in declaration order (the order
`Object.entries` yields). -/
abbrev ConfigSchema := List (String × SchemaEntry)

/-- Data accumulated for one section while building the section map. -/
structure SectionData where
  elements : List Element
  description : Option String := none

/-- Model of `Map.prototype.set`: overwrite in place when the key exists,
else append (JS `Map` preserves the original insertion position on
overwrite). -/
def mapSet (m : List (String × SectionData)) (k : String) (v : SectionData) :
    List (String × SectionData) :=
  if m.any (fun p => p.1 == k) then
    m.map (fun p => if p.1 == k then (k, v) else p)
  else m ++ [(k, v)]

/-- Model of `Map.prototype.get`. -/
def mapGet (m : List (String × SectionData)) (k : String) :
    Option SectionData :=
  (m.find? (fun p => p.1 == k)).map (fun p => p.2)

/-- Model of `ConfigBoundBuilder.buildElement`: construct an `Element` from
an item spec, defaulting `sensitive`/`omitFromSchema` to false and the
validator to `Joi.any()`. -/
def buildElement (name : String) (config : ConfigItem) :
    Except ConfigError Element :=
  Element.make name config.description config.default config.exampleValue
    (config.sensitive.getD false) (config.omitFromSchema.getD false)
    (config.validator.getD joiAny)

/-- Model of `ConfigBoundBuilder.buildElements`: compile a properties map
into elements in key order. -/
def buildElements (properties : List (String × ConfigItem)) :
    Except ConfigError (List Element) :=
  properties.mapM (fun p => buildElement p.1 p.2)

/-- One iteration of `ConfigBoundBuilder.buildSectionMap`'s loop: an entry
with a `properties` key becomes its own map entry; a top-level item is
appended to the entry under the hard-coded key "app". -/
def sectionMapStep (sectionMap : List (String × SectionData))
    (entry : String × SchemaEntry) :
    Except ConfigError (List (String × SectionData)) :=
  match entry.2 with
  | .sectionSpec description properties =>
    match buildElements properties with
    | .error e => .error e
    | .ok elements =>
      .ok (mapSet sectionMap entry.1 ⟨elements, description⟩)
  | .item config =>
    match buildElement entry.1 config with
    | .error e => .error e
    | .ok element =>
      .ok (mapSet sectionMap "app"
        ⟨((mapGet sectionMap "app").getD ⟨[], none⟩).elements ++ [element],
          ((mapGet sectionMap "app").getD ⟨[], none⟩).description⟩)

/-- Model of `ConfigBoundBuilder.buildSectionMap`: fold `sectionMapStep`
over the schema entries in declaration order. -/
def buildSectionMap (schema : ConfigSchema) :
    Except ConfigError (List (String × SectionData)) :=
  schema.foldlM sectionMapStep []

/-- Options accepted by `ConfigBoundBuilder.build` (the logger is modelled
away). -/
structure BuildOptions where
  name : Option String := none
  binds : Option (List Bind) := none
  validateOnInit : Option Bool := none

/-- One step of `ConfigBoundBuilder.build`'s wiring loop: create the
section from one map entry and attach it through `addSection`. -/
def attachSection (cb : ConfigBound) (p : String × SectionData) :
    Except ConfigError ConfigBound :=
  match Section.make p.1 p.2.elements p.2.description with
  | .error e => .error e
  | .ok sec => cb.addSection sec

/-- Model of `ConfigBoundBuilder.build`: create the container (name
defaulting to "app"), build the section map, create each section and attach
it through `addSection` in map order, then validate when `validateOnInit`
is truthy.  The `TypedConfigBound` wrapper adds only static typing and is
not modelled. -/
def ConfigBoundBuilder.build (schema : ConfigSchema) (options : BuildOptions) :
    Except ConfigError ConfigBound :=
  match ConfigBound.make (options.name.getD "app") (options.binds.getD []) [] with
  | .error e => .error e
  | .ok configBound =>
    match buildSectionMap schema with
    | .error e => .error e
    | .ok sectionMap =>
      match sectionMap.foldlM attachSection configBound with
      | .error e => .error e
      | .ok cb =>
        if options.validateOnInit.getD false then
          match cb.validate with
          | .error e => .error e
          | .ok _ => .ok cb
        else .ok cb

/-! ### Shared lemmas -/

theorem sanitizeName_ok {s t : String} (h : sanitizeName s = .ok t) :
    t = jsTrim s ∧ nameValidationMatch (jsTrim s) = true := by
  unfold sanitizeName at h
  split at h
  · exact ⟨((Except.ok.injEq _ _).mp h).symm, by assumption⟩
  · exact absurd h (by simp)

theorem sanitizeName_of_match {s : String} (h : nameValidationMatch (jsTrim s) = true) :
    sanitizeName s = .ok (jsTrim s) := by
  unfold sanitizeName
  rw [if_pos h]

theorem tryBinds_eq_none {binds : List Bind} {s e : String}
    (h : ∀ b ∈ binds, b.get s e = none) : tryBinds binds s e = none := by
  induction binds with
  | nil => rfl
  | cons b rest ih =>
    show (match b.get s e with
      | some v => some v
      | none => tryBinds rest s e) = none
    rw [h b (List.mem_cons_self b rest)]
    exact ih (fun x hx => h x (List.mem_cons_of_mem _ hx))

theorem tryBinds_first {pre : List Bind} {b : Bind} {post : List Bind}
    {s e : String} {v : Value}
    (hpre : ∀ x ∈ pre, x.get s e = none) (hb : b.get s e = some v) :
    tryBinds (pre ++ b :: post) s e = some v := by
  induction pre with
  | nil =>
    show (match b.get s e with
      | some w => some w
      | none => tryBinds post s e) = some v
    rw [hb]
  | cons p rest ih =>
    show (match p.get s e with
      | some w => some w
      | none => tryBinds (rest ++ b :: post) s e) = some v
    rw [hpre p (List.mem_cons_self _ _)]
    exact ih (fun x hx => hpre x (List.mem_cons_of_mem _ hx))

theorem ConfigBound.get_eq_of_found {cb : ConfigBound}
    {sectionName elementName : String} {sec : Section} {el : Element}
    (h1 : cb.sections.find? (fun x => x.name == sectionName) = some sec)
    (h2 : sec.getElements.find? (fun x => x.name == elementName) = some el) :
    cb.get sectionName elementName =
      match tryBinds cb.binds sectionName elementName with
      | some value =>
        match (el.validator.validate value).error with
        | some msg =>
          .error (.configInvalid (sectionName ++ "." ++ elementName) msg)
        | none => .ok (some (el.validator.validate value).value)
      | none =>
        match el.default with
        | some d => .ok (some d)
        | none => .ok none := by
  unfold ConfigBound.get
  simp only [h1, h2]

theorem Element.make_ok_fields {name : String} {description : Option String}
    {defaultValue exampleValue : Option Value} {sensitive omitFromSchema : Bool}
    {validator : Validator} {el : Element}
    (h : Element.make name description defaultValue exampleValue sensitive
      omitFromSchema validator = .ok el) :
    el.name = jsTrim name ∧ el.description = description ∧
    el.default = defaultValue ∧ el.exampleValue = exampleValue ∧
    el.sensitive = sensitive ∧ el.omitFromSchema = omitFromSchema ∧
    el.validator = validator ∧ el.value = none ∧ el.sectionName = none := by
  unfold Element.make at h
  split at h
  · exact absurd h (by simp)
  · rename_i n hn
    split at h
    · exact absurd h (by simp)
    · have hel := ((Except.ok.injEq _ _).mp h).symm
      obtain ⟨hname, _⟩ := sanitizeName_ok hn
      subst hel
      subst hname
      exact ⟨rfl, rfl, rfl, rfl, rfl, rfl, rfl, rfl, rfl⟩

/-! ### Claims C1, C2 -/

/-- C1: for every lookup on a `ConfigBound` whose sections contain the named
section and element, resolution follows strict precedence: the binds are
tried in insertion order and the first bind returning a defined value
determines the outcome (on validation success its validator-normalised value
is returned); when every bind returns undefined, the element's default is
returned when defined, else the result is unset (`none`). -/
theorem c1_resolution_precedence (cb : ConfigBound)
    (sectionName elementName : String) (sec : Section) (el : Element)
    (h1 : cb.sections.find? (fun x => x.name == sectionName) = some sec)
    (h2 : sec.getElements.find? (fun x => x.name == elementName) = some el) :
    (∀ pre b post v, cb.binds = pre ++ b :: post →
      (∀ x ∈ pre, x.get sectionName elementName = none) →
      b.get sectionName elementName = some v →
      (el.validator.validate v).error = none →
      cb.get sectionName elementName =
        .ok (some (el.validator.validate v).value)) ∧
    ((∀ x ∈ cb.binds, x.get sectionName elementName = none) →
      ∀ d, el.default = some d →
      cb.get sectionName elementName = .ok (some d)) ∧
    ((∀ x ∈ cb.binds, x.get sectionName elementName = none) →
      el.default = none →
      cb.get sectionName elementName = .ok none) := by
  refine ⟨?_, ?_, ?_⟩
  · intro pre b post v hsplit hpre hb herr
    rw [ConfigBound.get_eq_of_found h1 h2, hsplit, tryBinds_first hpre hb]
    simp only [herr]
  · intro hall d hd
    rw [ConfigBound.get_eq_of_found h1 h2, tryBinds_eq_none hall, hd]
  · intro hall hd
    rw [ConfigBound.get_eq_of_found h1 h2, tryBinds_eq_none hall, hd]

/-- C2: when the first bind (in insertion order) returning a defined value
yields a value the element's validator rejects, `ConfigBound.get` fails with
`ConfigInvalidException` on the dotted path carrying the validator's message
— for every later-bind list and every default, so later binds are never
consulted and the default is never substituted. -/
theorem c2_invalid_value_fails (cb : ConfigBound)
    (sectionName elementName : String) (sec : Section) (el : Element)
    (pre : List Bind) (b : Bind) (post : List Bind) (v : Value) (msg : String)
    (h1 : cb.sections.find? (fun x => x.name == sectionName) = some sec)
    (h2 : sec.getElements.find? (fun x => x.name == elementName) = some el)
    (hsplit : cb.binds = pre ++ b :: post)
    (hpre : ∀ x ∈ pre, x.get sectionName elementName = none)
    (hb : b.get sectionName elementName = some v)
    (herr : (el.validator.validate v).error = some msg) :
    cb.get sectionName elementName =
      .error (.configInvalid (sectionName ++ "." ++ elementName) msg) := by
  rw [ConfigBound.get_eq_of_found h1 h2, hsplit, tryBinds_first hpre hb]
  simp only [herr]

/-! ### Claim C10 -/

/-- C10: a resolved default is returned exactly as supplied at construction:
the `Element` constructor stores the original default value (not the
validator's normalised output), and the no-bind-value fallback of
`ConfigBound.get` returns that stored default without running the
validator, for every validator including normalising ones. -/
theorem c10_default_returned_verbatim :
    (∀ (name : String) (description : Option String)
      (defaultValue exampleValue : Option Value)
      (sensitive omitFromSchema : Bool) (validator : Validator) (el : Element),
      Element.make name description defaultValue exampleValue sensitive
        omitFromSchema validator = .ok el →
      el.default = defaultValue) ∧
    (∀ (cb : ConfigBound) (sectionName elementName : String)
      (sec : Section) (el : Element) (d : Value),
      cb.sections.find? (fun x => x.name == sectionName) = some sec →
      sec.getElements.find? (fun x => x.name == elementName) = some el →
      (∀ x ∈ cb.binds, x.get sectionName elementName = none) →
      el.default = some d →
      cb.get sectionName elementName = .ok (some d)) := by
  constructor
  · intro name description defaultValue exampleValue sensitive omitFromSchema
      validator el h
    exact (Element.make_ok_fields h).2.2.1
  · intro cb sectionName elementName sec el d h1 h2 hall hd
    rw [ConfigBound.get_eq_of_found h1 h2, tryBinds_eq_none hall, hd]

/-! ### Claim C4 -/

/-- Validator modelling `Joi.number().min(1)`: accepts integers of at least
one unchanged, rejects every other value with a message. -/
def joiNumberMinOne : Validator where
  validate := fun v =>
    match v with
    | .vInt n =>
      if 1 ≤ n then ⟨v, none⟩
      else ⟨v, some "\"value\" must be greater than or equal to 1"⟩
    | _ => ⟨v, some "\"value\" must be a number"⟩
  requiredPresence := false

/-- C4, the code evaluated at the failing input: constructing an element
whose defined default `0` is rejected by its validator nevertheless
succeeds and stores that default, because the constructor's
`if (defaultValue)` guard skips validation for falsy defined defaults; the
claim requires every defined default to be validated, so construction here
should fail with `InvalidValue`. -/
theorem c4_falsy_default_skips_validation :
    (joiNumberMinOne.validate (.vInt 0)).error =
      some "\"value\" must be greater than or equal to 1" ∧
    ∃ el, Element.make "level" none (some (.vInt 0)) none false false
        joiNumberMinOne = .ok el ∧ el.default = some (.vInt 0) := by
  exact ⟨rfl, ⟨_, rfl, rfl⟩⟩

/-! ### Claim C5 -/

/-- C5 counterexample: the claim declares every single alphanumeric
character a valid name with `sanitize("a") = trim("a") = "a"`, but the
source regex requires two characters, so `sanitizeName "a"` fails with
`InvalidNameException`. -/
theorem c5_counterexample :
    jsTrim "a" = "a" ∧
    sanitizeName "a" = .error (.invalidName "\"a\" is not a valid name.") := by
  exact ⟨rfl, rfl⟩

/-- The naming rule of claim C5, amended with the two-character minimum the
source regex imposes: the trimmed string has at least two characters,
starts and ends with an alphanumeric character, and draws every character
from the alphanumerics plus the separators. -/
def specAmendedNameRule (t : String) : Prop :=
  2 ≤ t.data.length ∧
  (∃ c₀, t.data.head? = some c₀ ∧ isAlnumChar c₀ = true) ∧
  (∃ c₁, t.data.getLast? = some c₁ ∧ isAlnumChar c₁ = true) ∧
  (∀ c ∈ t.data, isNameChar c = true)

theorem specAmendedNameRule_iff_match (t : String) :
    specAmendedNameRule t ↔ nameValidationMatch t = true := by
  unfold specAmendedNameRule nameValidationMatch
  rcases hh : t.data.head? with _ | c₀
  · simp
  rcases hl : t.data.getLast? with _ | c₁
  · simp
  simp only [Option.some_inj, Bool.and_eq_true, decide_eq_true_eq,
    List.all_eq_true]
  constructor
  · rintro ⟨hlen, ⟨x₀, hx₀, ha₀⟩, ⟨x₁, hx₁, ha₁⟩, hall⟩
    subst hx₀
    subst hx₁
    exact ⟨⟨⟨hlen, ha₀⟩, ha₁⟩, hall⟩
  · rintro ⟨⟨⟨hlen, ha₀⟩, ha₁⟩, hall⟩
    exact ⟨hlen, ⟨c₀, rfl, ha₀⟩, ⟨c₁, rfl, ha₁⟩, hall⟩

/-- C5 amended: `sanitizeName` succeeds and returns the trimmed name
exactly when the trimmed name satisfies the amended rule (nonempty becomes
a two-character minimum, single-character names are rejected); on every
other string it fails with `InvalidNameException`. -/
theorem c5_sanitize_amended (s : String) :
    (sanitizeName s = .ok (jsTrim s) ↔ specAmendedNameRule (jsTrim s)) ∧
    (¬ specAmendedNameRule (jsTrim s) →
      sanitizeName s =
        .error (.invalidName ("\"" ++ s ++ "\" is not a valid name."))) := by
  constructor
  · constructor
    · intro h
      exact (specAmendedNameRule_iff_match _).mpr (sanitizeName_ok h).2
    · intro h
      exact sanitizeName_of_match ((specAmendedNameRule_iff_match _).mp h)
  · intro h
    unfold sanitizeName
    rw [if_neg]
    intro hm
    exact h ((specAmendedNameRule_iff_match _).mpr hm)

/-! ### Claim C9 -/

/-- C9 counterexample: an element with default "localhost", attached to the
section "db" through the ordinary construction path, resolves to
`some "localhost"` under a provider that returns `none` for every path —
so `Element.get` does not delegate entirely to the provider: its result
differs from the provider's outcome for the element's path. -/
theorem c9_counterexample :
    (∃ el, Element.make "host" none (some (.vStr "localhost")) none false
        false joiAny = .ok el ∧
      ∃ sec, Section.make "db" [el] none = .ok sec ∧
      ∃ el2, sec.elements.head? = some el2 ∧
        el2.get (fun _ _ => none) = .ok (some (.vStr "localhost"))) ∧
    (fun (_ _ : String) => (none : Option Value)) "db" "host" = none := by
  exact ⟨⟨_, rfl, _, rfl, _, rfl, rfl⟩, rfl⟩

/-- C9 amended: `Element.get` first returns the locally set value when one
is present (without consulting the provider, even on an unattached
element); otherwise calling it on an element not attached to any section is
a fatal programming-error fault; otherwise it returns the provider's value
when defined, else the element's default when defined, else unset. -/
theorem c9_element_get_amended (el : Element)
    (ctx : String → String → Option Value) :
    (∀ v, el.value = some v → el.get ctx = .ok (some v)) ∧
    (el.value = none → el.sectionName = none →
      el.get ctx =
        .error (.jsError (el.name ++ " is not associated with any section"))) ∧
    (∀ sn cv, el.value = none → el.sectionName = some sn →
      ctx sn el.name = some cv → el.get ctx = .ok (some cv)) ∧
    (∀ sn d, el.value = none → el.sectionName = some sn →
      ctx sn el.name = none → el.default = some d →
      el.get ctx = .ok (some d)) ∧
    (∀ sn, el.value = none → el.sectionName = some sn →
      ctx sn el.name = none → el.default = none → el.get ctx = .ok none) := by
  unfold Element.get
  refine ⟨?_, ?_, ?_, ?_, ?_⟩ <;> intros <;> simp_all

/-! ### Claim C7 -/

/-- C7: the environment-variable bind coerces the raw string in the strict
order integer pattern, float pattern, case-insensitive boolean literal,
bracket/brace-delimited JSON attempt with silent fallback to the raw
string, raw string; and an absent variable yields unset, never an error. -/
theorem c7_envvar_coercion (b : EnvVarBind) (env : String → Option String)
    (jsonParse : String → Option Value) (fullName s : String) :
    (env (match b.customEnvVarName with
          | some f => f fullName
          | none => b.getEnvVarName fullName) = none →
      b.retrieve env jsonParse fullName = none) ∧
    (env (match b.customEnvVarName with
          | some f => f fullName
          | none => b.getEnvVarName fullName) = some s →
      b.retrieve env jsonParse fullName = some (convertValue jsonParse s)) ∧
    (intPattern s = true →
      convertValue jsonParse s = .vInt (parseIntDec s)) ∧
    (intPattern s = false → floatPattern s = true →
      convertValue jsonParse s = .vFloat (parseFloatDec s)) ∧
    (numberPattern s = false → toLowerAscii s = "true" →
      convertValue jsonParse s = .vBool true) ∧
    (numberPattern s = false → toLowerAscii s = "false" →
      convertValue jsonParse s = .vBool false) ∧
    (∀ j, numberPattern s = false → toLowerAscii s ≠ "true" →
      toLowerAscii s ≠ "false" → bracketDelimited s = true →
      jsonParse s = some j → convertValue jsonParse s = j) ∧
    (numberPattern s = false → toLowerAscii s ≠ "true" →
      toLowerAscii s ≠ "false" → bracketDelimited s = true →
      jsonParse s = none → convertValue jsonParse s = .vStr s) ∧
    (numberPattern s = false → toLowerAscii s ≠ "true" →
      toLowerAscii s ≠ "false" → bracketDelimited s = false →
      convertValue jsonParse s = .vStr s) := by
  refine ⟨?_, ?_, ?_, ?_, ?_, ?_, ?_, ?_, ?_⟩
  · intro h
    simp only [EnvVarBind.retrieve]
    rw [h]
  · intro h
    simp only [EnvVarBind.retrieve]
    rw [h]
  · intro h
    unfold convertValue
    rw [if_pos (by simp [numberPattern, h]), if_pos h]
  · intro hi hf
    unfold convertValue
    rw [if_pos (by simp [numberPattern, hi, hf]), if_neg (by simp [hi])]
  · intro hn ht
    unfold convertValue
    rw [if_neg (by simp [hn]), if_pos ht]
  · intro hn hf
    unfold convertValue
    rw [if_neg (by simp [hn])]
    rw [if_neg, if_pos hf]
    intro h
    rw [h] at hf
    simp at hf
  · intro j hn ht hf hb hj
    unfold convertValue
    rw [if_neg (by simp [hn]), if_neg ht, if_neg hf, if_pos hb, hj]
  · intro hn ht hf hb hj
    unfold convertValue
    rw [if_neg (by simp [hn]), if_neg ht, if_neg hf, if_pos hb, hj]
  · intro hn ht hf hb
    unfold convertValue
    rw [if_neg (by simp [hn]), if_neg ht, if_neg hf, if_neg (by simp [hb])]

/-! ### Claim C8: uniqueness lemmas -/

@[simp] theorem setParentSection_name (e : Element) (n : String) :
    (e.setParentSection n).name = e.name := rfl

theorem countP_name_eq (elements : List Element) (a : String) :
    (elements.filter (fun x => x.name == a)).length =
      (elements.map (fun e => e.name)).count a := by
  rw [List.count_eq_countP, List.countP_map, List.countP_eq_length_filter]
  rfl

theorem findDuplicateElements_eq_nil_iff (elements : List Element) :
    findDuplicateElements elements = [] ↔
      (elements.map (fun e => e.name)).Nodup := by
  unfold findDuplicateElements
  rw [List.filter_eq_nil_iff, List.nodup_iff_count_le_one]
  constructor
  · intro h a
    by_cases ha : a ∈ elements.map (fun e => e.name)
    · obtain ⟨e, he, rfl⟩ := List.mem_map.mp ha
      have h2 := h e he
      rw [decide_eq_true_eq, countP_name_eq] at h2
      omega
    · rw [List.count_eq_zero_of_not_mem ha]
      omega
  · intro h e he
    rw [decide_eq_true_eq, countP_name_eq]
    have := h e.name
    omega

theorem addElement_ok_eq {sec : Section} {el : Element}
    (hnd : ((sec.elements ++ [el]).map (fun e => e.name)).Nodup) :
    sec.addElement el = .ok { sec with
      elements := sec.elements ++ [el.setParentSection sec.name] } := by
  unfold Section.addElement
  rw [(findDuplicateElements_eq_nil_iff _).mpr hnd]

theorem addElement_ok_inv {sec : Section} {el : Element} {sec' : Section}
    (h : sec.addElement el = .ok sec') :
    ((sec.elements ++ [el]).map (fun e => e.name)).Nodup ∧
    sec' = { sec with
      elements := sec.elements ++ [el.setParentSection sec.name] } := by
  unfold Section.addElement at h
  rcases hfd : findDuplicateElements (sec.elements ++ [el]) with _ | ⟨d, rest⟩
  · rw [hfd] at h
    exact ⟨(findDuplicateElements_eq_nil_iff _).mp hfd,
      ((Except.ok.injEq _ _).mp h).symm⟩
  · rw [hfd] at h
    exact absurd h (by simp)

theorem addElement_error_of_mem {sec : Section} {el : Element}
    (hnd : (sec.elements.map (fun e => e.name)).Nodup)
    (hmem : el.name ∈ sec.elements.map (fun e => e.name)) :
    sec.addElement el = .error (.elementExists el.name) := by
  have hall : ∀ d ∈ findDuplicateElements (sec.elements ++ [el]),
      d.name = el.name := by
    intro d hd
    unfold findDuplicateElements at hd
    rw [List.mem_filter, decide_eq_true_eq, countP_name_eq] at hd
    obtain ⟨_, hdc⟩ := hd
    by_contra hne
    rw [List.map_append, List.count_append] at hdc
    have h1 : (List.map (fun e => e.name) [el]).count d.name = 0 := by
      rw [List.map_cons, List.map_nil, List.count_singleton, if_neg]
      simp only [beq_iff_eq]
      exact fun hx => hne hx.symm
    have h2 := List.nodup_iff_count_le_one.mp hnd d.name
    omega
  have hne2 : findDuplicateElements (sec.elements ++ [el]) ≠ [] := by
    intro h0
    rw [findDuplicateElements_eq_nil_iff, List.map_append] at h0
    obtain ⟨-, -, hdisj⟩ := List.nodup_append.mp h0
    exact hdisj hmem (by simp)
  rcases hfd : findDuplicateElements (sec.elements ++ [el]) with _ | ⟨d, rest⟩
  · exact absurd hfd hne2
  · unfold Section.addElement
    rw [hfd]
    show Except.error (ConfigError.elementExists d.name) = _
    rw [hall d (by rw [hfd]; exact List.mem_cons_self _ _)]

theorem foldlM_addElement_ok {es : List Element} :
    ∀ (sec : Section),
    ((sec.elements ++ es).map (fun e => e.name)).Nodup →
    ∃ sec', es.foldlM Section.addElement sec = .ok sec' ∧
      sec'.name = sec.name ∧ sec'.description = sec.description ∧
      sec'.elements.map (fun e => e.name) =
        (sec.elements ++ es).map (fun e => e.name) := by
  induction es with
  | nil =>
    intro sec h
    exact ⟨sec, rfl, rfl, rfl, by simp⟩
  | cons e rest ih =>
    intro sec h
    have hre : sec.elements ++ e :: rest = (sec.elements ++ [e]) ++ rest :=
      List.append_cons _ _ _
    have h1 : ((sec.elements ++ [e]).map (fun x => x.name)).Nodup := by
      rw [hre, List.map_append] at h
      exact (List.nodup_append.mp h).1
    have hstep : (e :: rest).foldlM Section.addElement sec =
        rest.foldlM Section.addElement
          { sec with elements := sec.elements ++ [e.setParentSection sec.name] } := by
      rw [List.foldlM_cons, addElement_ok_eq h1]
      rfl
    rw [hstep]
    have h2 : ((({ sec with
        elements := sec.elements ++ [e.setParentSection sec.name] } : Section).elements
        ++ rest).map (fun x => x.name)).Nodup := by
      show (((sec.elements ++ [e.setParentSection sec.name]) ++ rest).map
        (fun x => x.name)).Nodup
      rw [hre] at h
      simpa using h
    obtain ⟨sec', hfold, hname, hdesc, hnames⟩ := ih _ h2
    refine ⟨sec', hfold, hname, hdesc, ?_⟩
    rw [hnames, hre]
    simp

theorem setElements_ok (sec : Section) {es : List Element}
    (hnd : (es.map (fun e => e.name)).Nodup) :
    ∃ sec', sec.setElements es = .ok sec' ∧ sec'.name = sec.name ∧
      sec'.description = sec.description ∧
      sec'.elements.map (fun e => e.name) = es.map (fun e => e.name) := by
  unfold Section.setElements
  rw [(findDuplicateElements_eq_nil_iff es).mpr hnd]
  obtain ⟨sec', h, hn, hd, hnames⟩ :=
    foldlM_addElement_ok { sec with elements := [] } (by simpa using hnd)
  exact ⟨sec', h, hn, hd, by simpa using hnames⟩

theorem setElements_error (sec : Section) {es : List Element}
    (hnd : ¬ (es.map (fun e => e.name)).Nodup) :
    ∃ dn, sec.setElements es = .error (.elementExists dn) := by
  unfold Section.setElements
  rcases hfd : findDuplicateElements es with _ | ⟨d, rest⟩
  · exact absurd ((findDuplicateElements_eq_nil_iff es).mp hfd) hnd
  · exact ⟨d.name, rfl⟩

theorem all_nameChar_of_match {t : String} (h : nameValidationMatch t = true) :
    ∀ c ∈ t.data, isNameChar c = true := by
  unfold nameValidationMatch at h
  rcases hh : t.data.head? with _ | c₀ <;> rw [hh] at h
  · simp at h
  rcases hl : t.data.getLast? with _ | c₁ <;> rw [hl] at h
  · simp at h
  simp only [Bool.and_eq_true, List.all_eq_true] at h
  exact h.2

theorem not_ws_of_nameChar {c : Char} (h : isNameChar c = true) :
    isJsWhitespace c = false := by
  have h45 : 45 ≤ c.toNat := by
    unfold isNameChar isAlnumChar at h
    simp only [Bool.or_eq_true, Bool.and_eq_true, decide_eq_true_eq,
      beq_iff_eq] at h
    rcases h with ((((⟨h1, h2⟩ | ⟨h1, h2⟩) | ⟨h1, h2⟩) | rfl) | rfl) | rfl
    · omega
    · omega
    · omega
    · decide
    · decide
    · decide
  unfold isJsWhitespace
  simp only [Bool.or_eq_false_iff, decide_eq_false_iff_not]
  refine ⟨⟨⟨⟨⟨?_, ?_⟩, ?_⟩, ?_⟩, ?_⟩, ?_⟩ <;> omega

theorem dropWhile_eq_self_of_all {l : List Char}
    (h : ∀ c ∈ l, isJsWhitespace c = false) :
    l.dropWhile isJsWhitespace = l := by
  rcases l with _ | ⟨c, rest⟩
  · rfl
  · rw [List.dropWhile_cons, h c (by simp)]
    simp

theorem jsTrim_of_match {t : String} (h : nameValidationMatch t = true) :
    jsTrim t = t := by
  have hall : ∀ c ∈ t.data, isJsWhitespace c = false := fun c hc =>
    not_ws_of_nameChar (all_nameChar_of_match h c hc)
  unfold jsTrim
  rw [dropWhile_eq_self_of_all hall, dropWhile_eq_self_of_all
    (fun c hc => hall c (List.mem_reverse.mp hc)), List.reverse_reverse]

theorem sanitizeName_fix {t : String} (h : nameValidationMatch t = true) :
    sanitizeName t = .ok t := by
  unfold sanitizeName
  rw [jsTrim_of_match h, if_pos h]

theorem section_make_ok {name : String} {es : List Element}
    {description : Option String} {sec : Section}
    (h : Section.make name es description = .ok sec) :
    sec.name = jsTrim name ∧ sanitizeName sec.name = .ok sec.name ∧
    (sec.elements.map (fun e => e.name)).Nodup ∧
    sec.elements.map (fun e => e.name) = es.map (fun e => e.name) ∧
    sec.description = description := by
  unfold Section.make at h
  split at h
  · exact absurd h (by simp)
  · rename_i n hn
    obtain ⟨hntrim, hm⟩ := sanitizeName_ok hn
    subst hntrim
    by_cases hemp : es.isEmpty
    · rw [if_pos hemp] at h
      obtain rfl := ((Except.ok.injEq _ _).mp h).symm
      refine ⟨rfl, sanitizeName_fix hm, by simp, ?_, rfl⟩
      rw [List.isEmpty_iff.mp hemp]
    · rw [if_neg hemp] at h
      by_cases hnd : (es.map (fun e => e.name)).Nodup
      · obtain ⟨sec', hset, hsn, hsd, hsnames⟩ := setElements_ok
          { name := jsTrim name, description := description } hnd
        rw [hset] at h
        obtain rfl := ((Except.ok.injEq _ _).mp h)
        exact ⟨hsn, by rw [hsn]; exact sanitizeName_fix hm,
          by rw [hsnames]; exact hnd, hsnames, hsd⟩
      · obtain ⟨dn, hset⟩ := setElements_error
          { name := jsTrim name, description := description } hnd
        rw [hset] at h
        exact absurd h (by simp)

theorem addSection_ok_inv {cb : ConfigBound} {sec : Section}
    {cb' : ConfigBound} (h : cb.addSection sec = .ok cb') :
    cb' = { cb with sections := cb.sections ++ [sec] } := by
  unfold ConfigBound.addSection at h
  split at h
  · exact absurd h (by simp)
  · split at h
    · exact absurd h (by simp)
    · exact ((Except.ok.injEq _ _).mp h).symm

theorem addSection_preserves_nodup {cb : ConfigBound} {sec : Section}
    {cb' : ConfigBound}
    (hfix : sanitizeName sec.name = .ok sec.name)
    (hnd : (cb.sections.map (fun s => s.name)).Nodup)
    (h : cb.addSection sec = .ok cb') :
    (cb'.sections.map (fun s => s.name)).Nodup := by
  unfold ConfigBound.addSection at h
  split at h
  · exact absurd h (by simp)
  · rename_i n hn
    rw [hfix] at hn
    obtain rfl := ((Except.ok.injEq _ _).mp hn)
    split at h
    · exact absurd h (by simp)
    · rename_i hany
      obtain rfl := ((Except.ok.injEq _ _).mp h).symm
      show ((cb.sections ++ [sec]).map (fun s => s.name)).Nodup
      rw [List.map_append, List.nodup_append]
      refine ⟨hnd, by simp, ?_⟩
      intro a ha hb
      simp only [List.map_cons, List.map_nil, List.mem_singleton] at hb
      subst hb
      obtain ⟨x, hx, hxname⟩ := List.mem_map.mp ha
      exact hany (List.any_eq_true.mpr ⟨x, hx, by simp [hxname]⟩)

theorem addSection_error_of_mem {cb : ConfigBound} {sec : Section}
    (hfix : sanitizeName sec.name = .ok sec.name)
    (hmem : sec.name ∈ cb.sections.map (fun s => s.name)) :
    cb.addSection sec = .error (.sectionExists sec.name) := by
  unfold ConfigBound.addSection
  simp only [hfix]
  rw [if_pos]
  obtain ⟨x, hx, hxname⟩ := List.mem_map.mp hmem
  exact List.any_eq_true.mpr ⟨x, hx, by simp [hxname]⟩

theorem foldlM_addSection_nodup :
    ∀ (sections : List Section) (cb0 cb : ConfigBound),
    (∀ sec ∈ sections, sanitizeName sec.name = .ok sec.name) →
    (cb0.sections.map (fun s => s.name)).Nodup →
    sections.foldlM ConfigBound.addSection cb0 = .ok cb →
    (cb.sections.map (fun s => s.name)).Nodup := by
  intro sections
  induction sections with
  | nil =>
    intro cb0 cb _ hnd h
    obtain rfl : cb0 = cb := (Except.ok.injEq _ _).mp h
    exact hnd
  | cons s rest ih =>
    intro cb0 cb hfix hnd h
    rw [List.foldlM_cons] at h
    rcases ha : cb0.addSection s with e | cb1 <;> rw [ha] at h
    · exact Except.noConfusion h
    · have h' : rest.foldlM ConfigBound.addSection cb1 = .ok cb := h
      exact ih cb1 cb (fun x hx => hfix x (List.mem_cons_of_mem _ hx))
        (addSection_preserves_nodup (hfix s (List.mem_cons_self _ _)) hnd ha) h'

/-- C8: name uniqueness is preserved by every operation of the object
graph: the `Section` constructor establishes a duplicate-free element list
or fails with `ElementExists`; `setElements` rejects a duplicated input
list with `ElementExists`; a successful `addElement` appends exactly one
name and keeps the list duplicate-free while a duplicate name fails with
`ElementExists`, leaving the collection unchanged (the operation returns no
new state on error); `ConfigBound.addSection` appends exactly one section,
keeps section names duplicate-free, and fails with `SectionExists` on a
duplicate; and the `ConfigBound` constructor establishes duplicate-free
section names. -/
theorem c8_name_uniqueness :
    (∀ (name : String) (es : List Element) (description : Option String)
      (sec : Section), Section.make name es description = .ok sec →
      (sec.elements.map (fun e => e.name)).Nodup) ∧
    (∀ (name : String) (es : List Element) (description : Option String)
      (n : String), sanitizeName name = .ok n →
      ¬ (es.map (fun e => e.name)).Nodup →
      ∃ dn, Section.make name es description = .error (.elementExists dn)) ∧
    (∀ (sec : Section) (es : List Element),
      ¬ (es.map (fun e => e.name)).Nodup →
      ∃ dn, sec.setElements es = .error (.elementExists dn)) ∧
    (∀ (sec : Section) (el : Element) (sec' : Section),
      sec.addElement el = .ok sec' →
      sec'.elements.map (fun e => e.name) =
        sec.elements.map (fun e => e.name) ++ [el.name] ∧
      (sec'.elements.map (fun e => e.name)).Nodup) ∧
    (∀ (sec : Section) (el : Element),
      (sec.elements.map (fun e => e.name)).Nodup →
      el.name ∈ sec.elements.map (fun e => e.name) →
      sec.addElement el = .error (.elementExists el.name)) ∧
    (∀ (cb : ConfigBound) (sec : Section) (cb' : ConfigBound),
      cb.addSection sec = .ok cb' →
      cb'.sections = cb.sections ++ [sec]) ∧
    (∀ (cb : ConfigBound) (sec : Section) (cb' : ConfigBound),
      sanitizeName sec.name = .ok sec.name →
      (cb.sections.map (fun s => s.name)).Nodup →
      cb.addSection sec = .ok cb' →
      (cb'.sections.map (fun s => s.name)).Nodup) ∧
    (∀ (cb : ConfigBound) (sec : Section),
      sanitizeName sec.name = .ok sec.name →
      sec.name ∈ cb.sections.map (fun s => s.name) →
      cb.addSection sec = .error (.sectionExists sec.name)) ∧
    (∀ (name : String) (binds : List Bind) (sections : List Section)
      (cb : ConfigBound),
      (∀ sec ∈ sections, sanitizeName sec.name = .ok sec.name) →
      ConfigBound.make name binds sections = .ok cb →
      (cb.sections.map (fun s => s.name)).Nodup) := by
  refine ⟨?_, ?_, ?_, ?_, ?_, ?_, ?_, ?_, ?_⟩
  · intro name es description sec h
    exact (section_make_ok h).2.2.1
  · intro name es description n hs hnd
    unfold Section.make
    simp only [hs]
    have hne : ¬ es.isEmpty := by
      intro hemp
      rw [List.isEmpty_iff.mp hemp] at hnd
      exact hnd (by simp)
    rw [if_neg (by simpa using hne)]
    exact setElements_error _ hnd
  · intro sec es hnd
    exact setElements_error _ hnd
  · intro sec el sec' h
    obtain ⟨hnd, rfl⟩ := addElement_ok_inv h
    constructor
    · simp
    · simpa using hnd
  · intro sec el hnd hmem
    exact addElement_error_of_mem hnd hmem
  · intro cb sec cb' h
    rw [addSection_ok_inv h]
  · intro cb sec cb' hfix hnd h
    exact addSection_preserves_nodup hfix hnd h
  · intro cb sec hfix hmem
    exact addSection_error_of_mem hfix hmem
  · intro name binds sections cb hfix h
    unfold ConfigBound.make at h
    split at h
    · exact absurd h (by simp)
    · exact foldlM_addSection_nodup sections _ cb hfix (by simp) h

/-! ### Claim C3 -/

theorem find?_key_self {α : Type} (key : α → String) :
    ∀ {l : List α} {a : α},
    (l.map key).Nodup → a ∈ l →
    l.find? (fun x => key x == key a) = some a := by
  intro l
  induction l with
  | nil => intro a _ ha; cases ha
  | cons x xs ih =>
    intro a hnd ha
    rw [List.map_cons, List.nodup_cons] at hnd
    rcases List.mem_cons.mp ha with rfl | ha'
    · rw [List.find?_cons_of_pos _ (by simp)]
    · have hne : key x ≠ key a := by
        intro hkey
        exact hnd.1 (hkey ▸ List.mem_map_of_mem key ha')
      rw [List.find?_cons_of_neg _ (by simp [hne])]
      exact ih hnd.2 ha'

/-- The claim's description of one element's contribution to the
validation report, phrased directly through `ConfigBound.get`: one
"Required value is not set" entry when a required element resolves to
unset, one entry carrying the exception's message when resolution raises
`ConfigInvalidException`, nothing otherwise. -/
def validationEntryFor (cb : ConfigBound) (sec : Section) (el : Element) :
    Option ValidationEntry :=
  match cb.get sec.name el.name with
  | .error (.configInvalid p m) =>
    some ⟨sec.name ++ "." ++ el.name, (ConfigError.configInvalid p m).message⟩
  | .error _ => none
  | .ok v =>
    if el.isRequired && v.isNone then
      some ⟨sec.name ++ "." ++ el.name, "Required value is not set"⟩
    else none

theorem recordSection_ok {cb : ConfigBound} {sec : Section} :
    ∀ {els : List Element} {acc : List ValidationEntry},
    (∀ el ∈ els, ∀ e, cb.get sec.name el.name = .error e →
      ∃ p m, e = .configInvalid p m) →
    els.foldlM (recordElement cb sec) acc =
      .ok (acc ++ els.filterMap (validationEntryFor cb sec)) := by
  intro els
  induction els with
  | nil =>
    intro acc _
    simp only [List.foldlM_nil, List.filterMap_nil, List.append_nil]
    rfl
  | cons el rest ih =>
    intro acc h
    rw [List.foldlM_cons]
    rcases hg : cb.get sec.name el.name with e | v
    · obtain ⟨p, m, rfl⟩ := h el (List.mem_cons_self _ _) e hg
      have hstep : recordElement cb sec acc el =
          .ok (acc ++ [⟨sec.name ++ "." ++ el.name,
            (ConfigError.configInvalid p m).message⟩]) := by
        unfold recordElement
        rw [hg]
      rw [hstep]
      have hf : validationEntryFor cb sec el =
          some ⟨sec.name ++ "." ++ el.name,
            (ConfigError.configInvalid p m).message⟩ := by
        unfold validationEntryFor
        rw [hg]
      show rest.foldlM (recordElement cb sec) (acc ++ [_]) = _
      rw [ih (fun x hx => h x (List.mem_cons_of_mem _ hx)),
        List.filterMap_cons, hf]
      simp
    · have hf : validationEntryFor cb sec el =
          if el.isRequired && v.isNone then
            some ⟨sec.name ++ "." ++ el.name, "Required value is not set"⟩
          else none := by
        unfold validationEntryFor
        rw [hg]
      by_cases hreq : (el.isRequired && v.isNone) = true
      · have hstep : recordElement cb sec acc el =
            .ok (acc ++ [⟨sec.name ++ "." ++ el.name,
              "Required value is not set"⟩]) := by
          unfold recordElement
          simp only [hg]
          rw [if_pos hreq]
        rw [hstep]
        show rest.foldlM (recordElement cb sec) (acc ++ [_]) = _
        rw [ih (fun x hx => h x (List.mem_cons_of_mem _ hx)),
          List.filterMap_cons, hf, if_pos hreq]
        simp
      · have hstep : recordElement cb sec acc el = .ok acc := by
          unfold recordElement
          simp only [hg]
          rw [if_neg hreq]
        rw [hstep]
        show rest.foldlM (recordElement cb sec) acc = _
        rw [ih (fun x hx => h x (List.mem_cons_of_mem _ hx)),
          List.filterMap_cons, hf, if_neg hreq]

theorem getValidationErrors_go_ok {cb : ConfigBound} :
    ∀ {secs : List Section} (acc : List ValidationEntry),
    (∀ sec ∈ secs, ∀ el ∈ sec.elements, ∀ e,
      cb.get sec.name el.name = .error e → ∃ p m, e = .configInvalid p m) →
    secs.foldlM (recordSection cb) acc =
      .ok (acc ++ secs.flatMap (fun sec =>
        sec.elements.filterMap (validationEntryFor cb sec))) := by
  intro secs
  induction secs with
  | nil =>
    intro acc _
    simp only [List.foldlM_nil, List.flatMap_nil, List.append_nil]
    rfl
  | cons sec rest ih =>
    intro acc h
    rw [List.foldlM_cons]
    have hstep : recordSection cb acc sec =
        .ok (acc ++ sec.elements.filterMap (validationEntryFor cb sec)) :=
      recordSection_ok (fun el hel => h sec (List.mem_cons_self _ _) el hel)
    rw [hstep]
    show rest.foldlM (recordSection cb) (acc ++ _) = _
    rw [ih _ (fun s hs => h s (List.mem_cons_of_mem _ hs))]
    rw [List.flatMap_cons]
    simp

theorem get_no_lookup_errors {cb : ConfigBound}
    (hnd : (cb.sections.map (fun s => s.name)).Nodup)
    (hnde : ∀ sec ∈ cb.sections, (sec.elements.map (fun e => e.name)).Nodup) :
    ∀ sec ∈ cb.sections, ∀ el ∈ sec.elements, ∀ e,
      cb.get sec.name el.name = .error e → ∃ p m, e = .configInvalid p m := by
  intro sec hsec el hel e hg
  have h1 : cb.sections.find? (fun x => x.name == sec.name) = some sec :=
    find?_key_self (fun s => s.name) hnd hsec
  have h2 : sec.getElements.find? (fun x => x.name == el.name) = some el :=
    find?_key_self (fun x => x.name) (hnde sec hsec) hel
  rw [ConfigBound.get_eq_of_found h1 h2] at hg
  rcases ht : tryBinds cb.binds sec.name el.name with _ | v <;>
    simp only [ht] at hg
  · rcases hd : el.default with _ | d <;> simp only [hd] at hg <;>
      exact absurd hg (by simp)
  · rcases he : (el.validator.validate v).error with _ | msg <;>
      simp only [he] at hg
    · exact absurd hg (by simp)
    · exact ⟨_, _, ((Except.error.injEq _ _).mp hg).symm⟩

/-- C3: `validate` raises exactly when `getValidationErrors` returns a
nonempty list, and that single composite failure lists every recorded path
and message; the list produced by walking every section/element through
`get` contains exactly one "Required value is not set" entry per required
element resolving to unset plus one entry per `ConfigInvalidException`
raised during resolution (caught and recorded, not propagated), while
`getValidationErrors` returns the list instead of raising. -/
theorem c3_validate_aggregates (cb : ConfigBound)
    (hnd : (cb.sections.map (fun s => s.name)).Nodup)
    (hnde : ∀ sec ∈ cb.sections, (sec.elements.map (fun e => e.name)).Nodup) :
    ∃ L, cb.getValidationErrors = .ok L ∧
      L = cb.sections.flatMap (fun sec =>
        sec.elements.filterMap (validationEntryFor cb sec)) ∧
      (cb.validate = .ok () ↔ L = []) ∧
      (L ≠ [] → cb.validate =
        .error (.configInvalid "configuration" (compositeMessage L))) := by
  have hgood := get_no_lookup_errors hnd hnde
  have hL : cb.getValidationErrors = .ok (cb.sections.flatMap (fun sec =>
      sec.elements.filterMap (validationEntryFor cb sec))) := by
    unfold ConfigBound.getValidationErrors
    have := getValidationErrors_go_ok [] hgood
    simpa using this
  refine ⟨_, hL, rfl, ?_, ?_⟩
  · constructor
    · intro hv
      by_contra hne
      unfold ConfigBound.validate at hv
      simp only [hL] at hv
      rw [if_pos (List.length_pos.mpr hne)] at hv
      exact absurd hv (by simp)
    · intro he
      unfold ConfigBound.validate
      simp only [hL, he]
      simp
  · intro hne
    unfold ConfigBound.validate
    simp only [hL]
    rw [if_pos (List.length_pos.mpr hne)]

/-! ### Claim C6 -/

/-- The schema literal of the claim's concrete scenario: a top-level item
`port` (default 3000) and a section `database` whose properties hold `host`
(default "localhost"). -/
def exampleSchema : ConfigSchema :=
  [("port", .item { default := some (.vInt 3000) }),
   ("database", .sectionSpec none
     [("host", { default := some (.vStr "localhost") })])]

/-- The top-level item specs of a schema, in declaration order. -/
def itemEntries (schema : ConfigSchema) : List (String × ConfigItem) :=
  schema.filterMap (fun p =>
    match p.2 with
    | .item config => some (p.1, config)
    | .sectionSpec _ _ => none)

/-- The single map key a schema entry writes: its own key for a section
spec, the hard-coded "app" for an item. -/
def touchedKey (entry : String × SchemaEntry) : String :=
  match entry.2 with
  | .item _ => "app"
  | .sectionSpec _ _ => entry.1

theorem find?_mapSet_overwrite {k : String} {v : SectionData} :
    ∀ (m : List (String × SectionData)),
    (m.map (fun p => if p.1 == k then (k, v) else p)).find?
        (fun p => p.1 == k) =
      if m.any (fun p => p.1 == k) then some (k, v) else none := by
  intro m
  induction m with
  | nil => rfl
  | cons p rest ih =>
    rw [List.map_cons, List.any_cons]
    cases hp : (p.1 == k) with
    | true => simp [List.find?_cons]
    | false =>
      rw [if_neg (show ¬ ((false : Bool) = true) by simp)]
      rw [List.find?_cons]
      simp only [hp]
      rw [ih, Bool.false_or]

theorem find?_mapSet_other {k k' : String} {v : SectionData}
    (hne : k' ≠ k) :
    ∀ (m : List (String × SectionData)),
    (m.map (fun p => if p.1 == k then (k, v) else p)).find?
        (fun p => p.1 == k') = m.find? (fun p => p.1 == k') := by
  have hkk : (k == k') = false := by
    simp only [beq_eq_false_iff_ne, ne_eq]
    exact fun h => hne h.symm
  intro m
  induction m with
  | nil => rfl
  | cons p rest ih =>
    rw [List.map_cons]
    by_cases hp : (p.1 == k) = true
    · have hpk : (p.1 == k') = false := by
        simp only [beq_iff_eq] at hp
        simp only [beq_eq_false_iff_ne, ne_eq, hp]
        exact fun h => hne h.symm
      rw [if_pos hp]
      rw [List.find?_cons, List.find?_cons]
      simp only [hkk, hpk]
      exact ih
    · rw [if_neg hp]
      rw [List.find?_cons, List.find?_cons]
      cases hpk : (p.1 == k') with
      | true => rfl
      | false => exact ih

theorem mapGet_set_self (m : List (String × SectionData)) (k : String)
    (v : SectionData) : mapGet (mapSet m k v) k = some v := by
  unfold mapGet mapSet
  split
  · rename_i hany
    rw [find?_mapSet_overwrite m, if_pos hany]
    rfl
  · rename_i hany
    rw [List.find?_append]
    have h0 : m.find? (fun p => p.1 == k) = none := by
      rw [List.find?_eq_none]
      intro x hx hbeq
      exact hany (List.any_eq_true.mpr ⟨x, hx, hbeq⟩)
    rw [h0, Option.none_or]
    simp [List.find?_cons]

theorem mapGet_set_other (m : List (String × SectionData)) {k k' : String}
    (v : SectionData) (hne : k' ≠ k) :
    mapGet (mapSet m k v) k' = mapGet m k' := by
  unfold mapGet mapSet
  split
  · rw [find?_mapSet_other hne m]
  · rw [List.find?_append]
    have hk0 : ([(k, v)].find? (fun p => p.1 == k')) = none := by
      have hkk : (k == k') = false := by
        simp only [beq_eq_false_iff_ne, ne_eq]
        exact fun h => hne h.symm
      simp [List.find?_cons, hkk]
    rw [hk0]
    rcases hf : m.find? (fun p => p.1 == k') with _ | x <;> rw [hf] <;> rfl

theorem mapSet_keys (m : List (String × SectionData)) (k : String)
    (v : SectionData) :
    (mapSet m k v).map (fun p => p.1) =
      if m.any (fun p => p.1 == k) then m.map (fun p => p.1)
      else m.map (fun p => p.1) ++ [k] := by
  have hpt : ∀ p : String × SectionData,
      (if p.1 == k then (k, v) else p).1 = p.1 := by
    intro p
    by_cases hp : (p.1 == k) = true
    · rw [if_pos hp]
      simp only [beq_iff_eq] at hp
      exact hp.symm
    · rw [if_neg hp]
  unfold mapSet
  split
  · rename_i hany
    rw [List.map_map]
    exact List.map_congr_left (fun p _ => hpt p)
  · rename_i hany
    rw [List.map_append]
    rfl

theorem sectionMapStep_ok_keys {acc acc' : List (String × SectionData)}
    {entry : String × SchemaEntry}
    (h : sectionMapStep acc entry = .ok acc')
    (hnd : (acc.map (fun p => p.1)).Nodup) :
    (acc'.map (fun p => p.1)).Nodup := by
  unfold sectionMapStep at h
  have keyfact : ∀ (v : SectionData) (k : String),
      (mapSet acc k v).map (fun p => p.1) |>.Nodup := by
    intro v k
    rw [mapSet_keys]
    split
    · exact hnd
    · rename_i hany
      rw [List.nodup_append]
      refine ⟨hnd, by simp, ?_⟩
      intro a ha hb
      simp only [List.mem_singleton] at hb
      subst hb
      obtain ⟨p, hp, hpk⟩ := List.mem_map.mp ha
      exact hany (List.any_eq_true.mpr ⟨p, hp, by simp [hpk]⟩)
  split at h
  · split at h
    · exact absurd h (by simp)
    · obtain rfl := ((Except.ok.injEq _ _).mp h)
      exact keyfact _ _
  · split at h
    · exact absurd h (by simp)
    · obtain rfl := ((Except.ok.injEq _ _).mp h)
      exact keyfact _ _

theorem buildSectionMap_go_nodup :
    ∀ (schema : ConfigSchema) (acc m : List (String × SectionData)),
    (acc.map (fun p => p.1)).Nodup →
    schema.foldlM sectionMapStep acc = .ok m →
    (m.map (fun p => p.1)).Nodup := by
  intro schema
  induction schema with
  | nil =>
    intro acc m hnd h
    obtain rfl : acc = m := (Except.ok.injEq _ _).mp h
    exact hnd
  | cons entry rest ih =>
    intro acc m hnd h
    rw [List.foldlM_cons] at h
    rcases ha : sectionMapStep acc entry with e | acc1 <;> rw [ha] at h
    · exact Except.noConfusion h
    · exact ih acc1 m (sectionMapStep_ok_keys ha hnd) h

theorem buildSectionMap_go_untouched :
    ∀ (schema : ConfigSchema) (acc m : List (String × SectionData))
      (k : String),
    (∀ entry ∈ schema, touchedKey entry ≠ k) →
    schema.foldlM sectionMapStep acc = .ok m →
    mapGet m k = mapGet acc k := by
  intro schema
  induction schema with
  | nil =>
    intro acc m k _ h
    obtain rfl : acc = m := (Except.ok.injEq _ _).mp h
    rfl
  | cons entry rest ih =>
    intro acc m k htouch h
    rw [List.foldlM_cons] at h
    rcases ha : sectionMapStep acc entry with e | acc1 <;> rw [ha] at h
    · exact Except.noConfusion h
    · have hrest := ih acc1 m k
        (fun x hx => htouch x (List.mem_cons_of_mem _ hx)) h
      rw [hrest]
      have hk := htouch entry (List.mem_cons_self _ _)
      unfold sectionMapStep at ha
      unfold touchedKey at hk
      split at ha
      · rename_i description properties heq
        split at ha
        · exact absurd ha (by simp)
        · obtain rfl := ((Except.ok.injEq _ _).mp ha)
          rw [heq] at hk
          exact mapGet_set_other _ _ (fun hkk => hk hkk.symm)
      · rename_i config heq
        split at ha
        · exact absurd ha (by simp)
        · obtain rfl := ((Except.ok.injEq _ _).mp ha)
          rw [heq] at hk
          exact mapGet_set_other _ _ (fun hkk => hk hkk.symm)

theorem buildSectionMap_go_app :
    ∀ (schema : ConfigSchema) (acc m : List (String × SectionData)),
    (∀ entry ∈ schema, ∀ d ps,
      entry.2 = SchemaEntry.sectionSpec d ps → entry.1 ≠ "app") →
    schema.foldlM sectionMapStep acc = .ok m →
    ∃ els, buildElements (itemEntries schema) = .ok els ∧
      mapGet m "app" =
        (match mapGet acc "app", els with
         | none, [] => none
         | none, _ => some ⟨els, none⟩
         | some sd, _ => some ⟨sd.elements ++ els, sd.description⟩) := by
  intro schema
  induction schema with
  | nil =>
    intro acc m _ h
    obtain rfl : acc = m := (Except.ok.injEq _ _).mp h
    refine ⟨[], rfl, ?_⟩
    rcases hg : mapGet acc "app" with _ | sd
    · rfl
    · simp
  | cons entry rest ih =>
    intro acc m hnoapp h
    rw [List.foldlM_cons] at h
    rcases ha : sectionMapStep acc entry with e | acc1 <;> rw [ha] at h
    · exact Except.noConfusion h
    obtain ⟨els, hels, hgm⟩ :=
      ih acc1 m (fun x hx => hnoapp x (List.mem_cons_of_mem _ hx)) h
    obtain ⟨key, spec⟩ := entry
    rcases spec with config | ⟨description, properties⟩
    · -- item entry: prepended to the app accumulation
      unfold sectionMapStep at ha
      rcases hbe : buildElement key config with e | element <;>
        simp only [hbe] at ha
      · exact absurd ha (by simp)
      obtain rfl := ((Except.ok.injEq _ _).mp ha)
      refine ⟨element :: els, ?_, ?_⟩
      · show buildElements ((key, config) :: itemEntries rest) = _
        unfold buildElements
        unfold buildElements at hels
        simp only [List.mapM_cons, hbe, hels]
        rfl
      · rw [hgm, mapGet_set_self]
        rcases hg : mapGet acc "app" with _ | sd <;> simp [hg]
    · -- section spec entry: does not touch the app key
      have hkey : key ≠ "app" :=
        hnoapp (key, .sectionSpec description properties)
          (List.mem_cons_self _ _) description properties rfl
      unfold sectionMapStep at ha
      rcases hbe : buildElements properties with e | els0 <;>
        simp only [hbe] at ha
      · exact absurd ha (by simp)
      obtain rfl := ((Except.ok.injEq _ _).mp ha)
      refine ⟨els, ?_, ?_⟩
      · exact hels
      · rw [hgm, mapGet_set_other _ _ (fun hkk => hkey hkk.symm)]

theorem buildSectionMap_sectionSpec {schema : ConfigSchema}
    {m : List (String × SectionData)} {k : String} {d : Option String}
    {ps : List (String × ConfigItem)}
    (hknd : (schema.map (fun p => p.1)).Nodup)
    (hkapp : k ≠ "app")
    (hmem : (k, SchemaEntry.sectionSpec d ps) ∈ schema)
    (h : buildSectionMap schema = .ok m) :
    ∃ els, buildElements ps = .ok els ∧ mapGet m k = some ⟨els, d⟩ := by
  obtain ⟨pre, post, hdec⟩ := List.append_of_mem hmem
  subst hdec
  unfold buildSectionMap at h
  rw [List.foldlM_append] at h
  rcases hp : pre.foldlM sectionMapStep [] with e | acc1 <;> rw [hp] at h
  · exact Except.noConfusion h
  have h' : ((k, SchemaEntry.sectionSpec d ps) :: post).foldlM
      sectionMapStep acc1 = .ok m := h
  rw [List.foldlM_cons] at h'
  rcases ha : sectionMapStep acc1 (k, SchemaEntry.sectionSpec d ps)
    with e | acc2 <;> rw [ha] at h'
  · exact Except.noConfusion h'
  unfold sectionMapStep at ha
  rcases hbe : buildElements ps with e | els <;> simp only [hbe] at ha
  · exact absurd ha (by simp)
  obtain rfl := ((Except.ok.injEq _ _).mp ha)
  refine ⟨els, rfl, ?_⟩
  have huntouch : ∀ entry ∈ post, touchedKey entry ≠ k := by
    intro entry hent
    unfold touchedKey
    rcases hspec : entry.2 with config | ⟨description, properties⟩
    · exact fun hk => hkapp hk.symm
    · intro hk
      rw [List.map_append, List.map_cons] at hknd
      rw [List.nodup_append] at hknd
      obtain ⟨-, hnd2, -⟩ := hknd
      rw [List.nodup_cons] at hnd2
      exact hnd2.1 (hk ▸ List.mem_map_of_mem (fun p => p.1) hent)
  have h2 : post.foldlM sectionMapStep
      (mapSet acc1 k ⟨els, d⟩) = .ok m := h'
  rw [buildSectionMap_go_untouched post _ m k huntouch h2, mapGet_set_self]

theorem attachSections_names :
    ∀ (entries : List (String × SectionData)) (cb0 cb : ConfigBound),
    entries.foldlM attachSection cb0 = .ok cb →
    cb.sections.map (fun s => s.name) =
      cb0.sections.map (fun s => s.name) ++
        entries.map (fun p => jsTrim p.1) := by
  intro entries
  induction entries with
  | nil =>
    intro cb0 cb h
    obtain rfl : cb0 = cb := (Except.ok.injEq _ _).mp h
    simp
  | cons p rest ih =>
    intro cb0 cb h
    rw [List.foldlM_cons] at h
    rcases ha : attachSection cb0 p with e | cb1 <;> rw [ha] at h
    · exact Except.noConfusion h
    have h' : rest.foldlM attachSection cb1 = .ok cb := h
    unfold attachSection at ha
    split at ha
    · exact absurd ha (by simp)
    · rename_i sec hsec
      have hadd := addSection_ok_inv ha
      subst hadd
      rw [ih _ cb h']
      obtain ⟨hname, -⟩ := section_make_ok hsec
      show ((cb0.sections ++ [sec]).map (fun s => s.name)) ++ _ = _
      simp [hname]

theorem configBound_make_nil_sections {n : String} {binds : List Bind}
    {cb : ConfigBound} (h : ConfigBound.make n binds [] = .ok cb) :
    cb.sections = [] := by
  unfold ConfigBound.make at h
  split at h
  · exact absurd h (by simp)
  · obtain rfl : _ = cb := (Except.ok.injEq _ _).mp h
    rfl

theorem build_sections_names {schema : ConfigSchema} {options : BuildOptions}
    {cb : ConfigBound} {m : List (String × SectionData)}
    (hb : ConfigBoundBuilder.build schema options = .ok cb)
    (hm : buildSectionMap schema = .ok m) :
    cb.sections.map (fun s => s.name) = m.map (fun p => jsTrim p.1) := by
  unfold ConfigBoundBuilder.build at hb
  split at hb
  · exact absurd hb (by simp)
  rename_i cb0 hmk
  split at hb
  · exact absurd hb (by simp)
  rename_i sectionMap hsm
  rw [hm] at hsm
  obtain rfl := ((Except.ok.injEq _ _).mp hsm)
  split at hb
  · exact absurd hb (by simp)
  rename_i cb1 hfold
  have hnames := attachSections_names m cb0 cb1 hfold
  have hnil : cb0.sections = [] := configBound_make_nil_sections hmk
  split at hb
  · split at hb
    · exact absurd hb (by simp)
    · obtain rfl := ((Except.ok.injEq _ _).mp hb)
      rw [hnames, hnil]
      rfl
  · obtain rfl := ((Except.ok.injEq _ _).mp hb)
    rw [hnames, hnil]
    rfl

/-- C6 counterexample: built from a schema with one top-level item under the
configured container name "myapp", the item still lands in a section named
"app" — the implicit section's name is hard-coded, not the configured
container name the claim describes. -/
theorem c6_counterexample :
    (ConfigBoundBuilder.build
        [("port", .item { default := some (.vInt 3000) })]
        { name := some "myapp" }).map
      (fun cb => cb.sections.map (fun s => s.name)) = .ok ["app"] ∧
    (ConfigBoundBuilder.build
        [("port", .item { default := some (.vInt 3000) })]
        { name := some "myapp" }).map
      (fun cb => cb.sections.map (fun s => s.name)) ≠ .ok ["myapp"] := by
  have h0 : (ConfigBoundBuilder.build
      [("port", .item { default := some (.vInt 3000) })]
      { name := some "myapp" }).map
      (fun cb => cb.sections.map (fun s => s.name)) = .ok ["app"] := rfl
  refine ⟨h0, fun h => ?_⟩
  rw [h0] at h
  exact absurd ((Except.ok.injEq _ _).mp h) (by decide)

/-- C6 amended: every schema entry carrying a properties key becomes its own
named section containing one element per property, while the top-level item
specs are accumulated into a single implicit section that is always named
"app" — regardless of the configured container name; on the claim's
concrete schema (with container name "app") this yields exactly two
sections, app containing port and database containing host. -/
theorem c6_schema_builder_amended :
    ((ConfigBoundBuilder.build exampleSchema { name := some "app" }).map
      (fun cb => cb.sections.map
        (fun s => (s.name, s.elements.map (fun e => e.name)))) =
      .ok [("app", ["port"]), ("database", ["host"])]) ∧
    (∀ (schema : ConfigSchema) (m : List (String × SectionData)),
      buildSectionMap schema = .ok m → (m.map (fun p => p.1)).Nodup) ∧
    (∀ (schema : ConfigSchema) (m : List (String × SectionData))
      (k : String) (d : Option String) (ps : List (String × ConfigItem)),
      (schema.map (fun p => p.1)).Nodup → k ≠ "app" →
      (k, SchemaEntry.sectionSpec d ps) ∈ schema →
      buildSectionMap schema = .ok m →
      ∃ els, buildElements ps = .ok els ∧ mapGet m k = some ⟨els, d⟩) ∧
    (∀ (schema : ConfigSchema) (m : List (String × SectionData)),
      (∀ d ps, ("app", SchemaEntry.sectionSpec d ps) ∉ schema) →
      buildSectionMap schema = .ok m →
      ∃ els, buildElements (itemEntries schema) = .ok els ∧
        mapGet m "app" = (if els.isEmpty then none else some ⟨els, none⟩)) ∧
    (∀ (schema : ConfigSchema) (options : BuildOptions) (cb : ConfigBound)
      (m : List (String × SectionData)),
      ConfigBoundBuilder.build schema options = .ok cb →
      buildSectionMap schema = .ok m →
      cb.sections.map (fun s => s.name) = m.map (fun p => jsTrim p.1)) := by
  refine ⟨rfl, ?_, ?_, ?_, ?_⟩
  · intro schema m h
    exact buildSectionMap_go_nodup schema [] m (by simp) h
  · intro schema m k d ps hknd hkapp hmem h
    exact buildSectionMap_sectionSpec hknd hkapp hmem h
  · intro schema m hnoapp h
    obtain ⟨els, hels, hgm⟩ := buildSectionMap_go_app schema [] m
      (fun entry hent d ps hspec => by
        intro hkey
        obtain ⟨k0, s0⟩ := entry
        have hs0 : s0 = SchemaEntry.sectionSpec d ps := hspec
        have hk0 : k0 = "app" := hkey
        subst hs0
        subst hk0
        exact hnoapp d ps hent) h
    refine ⟨els, hels, ?_⟩
    rw [hgm]
    show (match (none : Option SectionData), els with
      | none, [] => (none : Option SectionData)
      | none, _ => some { elements := els, description := none }
      | some sd, _ =>
        some { elements := sd.elements ++ els, description := sd.description }) = _
    rcases els with _ | ⟨e, es⟩ <;> rfl
  · intro schema options cb m hb hm
    exact build_sections_names hb hm

/-! ### Concrete fixtures and witnesses -/

/-- A normalising validator for witnesses: accepts strings and trims them
(the normalised value differs from the candidate). -/
def trimValidator : Validator where
  validate := fun v =>
    match v with
    | .vStr s => ⟨.vStr (jsTrim s), none⟩
    | _ => ⟨v, some "must be a string"⟩
  requiredPresence := false

/-- A required validator accepting any value unchanged. -/
def requiredAny : Validator where
  validate := fun v => ⟨v, none⟩
  requiredPresence := true

def wPortElement : Element :=
  { name := "port", default := some (.vInt 3000), validator := joiNumberMinOne }

def wSection : Section := { name := "app", elements := [wPortElement] }

def wBindMiss : Bind := ⟨"FileBind", fun _ => none⟩

def wBindHit : Bind :=
  ⟨"EnvironmentVariable",
    fun p => if p == "app.port" then some (.vInt 8080) else none⟩

def wBindZero : Bind :=
  ⟨"EnvironmentVariable",
    fun p => if p == "app.port" then some (.vInt 0) else none⟩

def wConfig : ConfigBound :=
  { name := "test", binds := [wBindMiss, wBindHit], sections := [wSection] }

def wConfigNoHit : ConfigBound :=
  { name := "test", binds := [wBindMiss], sections := [wSection] }

def wBadConfig : ConfigBound :=
  { name := "test", binds := [wBindZero, wBindHit], sections := [wSection] }

/-- Witness for C1 at concrete inputs: with binds [miss, hit] the hit bind's
value 8080 wins; with only the missing bind the default 3000 is returned. -/
theorem c1_witness :
    wConfig.get "app" "port" = .ok (some (.vInt 8080)) ∧
    wConfigNoHit.get "app" "port" = .ok (some (.vInt 3000)) := by
  constructor
  · exact (c1_resolution_precedence wConfig "app" "port" wSection wPortElement
      rfl rfl).1 [wBindMiss] wBindHit [] (.vInt 8080) rfl
      (by
        intro x hx
        cases hx with
        | head => rfl
        | tail _ hx2 => cases hx2) rfl rfl
  · exact (c1_resolution_precedence wConfigNoHit "app" "port" wSection
      wPortElement rfl rfl).2.1
      (by
        intro x hx
        cases hx with
        | head => rfl
        | tail _ hx2 => cases hx2)
      (.vInt 3000) rfl

/-- Witness for C2 at concrete inputs: the first bind supplies 0, the
validator requires at least 1, so the lookup fails on path app.port even
though a later bind holds a valid value and the element has a default. -/
theorem c2_witness :
    wBadConfig.get "app" "port" = .error (.configInvalid "app.port"
      "\"value\" must be greater than or equal to 1") :=
  c2_invalid_value_fails wBadConfig "app" "port" wSection wPortElement
    [] wBindZero [wBindHit] (.vInt 0)
    "\"value\" must be greater than or equal to 1"
    rfl rfl rfl (by intro x hx; cases hx) rfl rfl

def wApiKey : Element := { name := "apiKey", validator := requiredAny }

def wSectionReq : Section := { name := "app", elements := [wApiKey] }

def wConfigReq : ConfigBound :=
  { name := "test", binds := [], sections := [wSectionReq] }

/-- Witness for C3 at a concrete configuration holding one required, unset
element. -/
theorem c3_witness :
    ∃ L, wConfigReq.getValidationErrors = .ok L ∧
      L = wConfigReq.sections.flatMap (fun sec =>
        sec.elements.filterMap (validationEntryFor wConfigReq sec)) ∧
      (wConfigReq.validate = .ok () ↔ L = []) ∧
      (L ≠ [] → wConfigReq.validate =
        .error (.configInvalid "configuration" (compositeMessage L))) :=
  c3_validate_aggregates wConfigReq (by decide)
    (by
      intro sec hs
      cases hs with
      | head => decide
      | tail _ hs2 => cases hs2)

/-- Witness for C5 at concrete inputs: a two-character name passes, a name
with a forbidden character fails. -/
theorem c5_witness :
    sanitizeName "ok" = .ok "ok" ∧
    sanitizeName "a!" = .error (.invalidName "\"a!\" is not a valid name.") := by
  constructor
  · exact (c5_sanitize_amended "ok").1.mpr
      ⟨by decide, ⟨'o', rfl, by decide⟩, ⟨'k', by decide, by decide⟩,
        by decide⟩
  · refine (c5_sanitize_amended "a!").2 ?_
    intro hr
    obtain ⟨-, -, -, hall⟩ := hr
    exact absurd (hall '!' (by decide)) (by decide)

/-- Witness for C6 at the concrete example schema: the section map builds
successfully and its keys are duplicate-free. -/
theorem c6_witness :
    ∃ m, buildSectionMap exampleSchema = .ok m ∧
      (m.map (fun p => p.1)).Nodup := by
  refine ⟨_, rfl, ?_⟩
  exact c6_schema_builder_amended.2.1 exampleSchema _ rfl

/-- Witness for C7 at concrete inputs: "42" is coerced to the integer 42,
and an absent variable yields unset. -/
theorem c7_witness :
    convertValue (fun _ => none) "42" = .vInt 42 ∧
    EnvVarBind.retrieve {} (fun _ => none) (fun _ => none) "app.port" =
      none := by
  constructor
  · exact (c7_envvar_coercion {} (fun _ => none) (fun _ => none)
      "app.port" "42").2.2.1 rfl
  · exact (c7_envvar_coercion {} (fun _ => none) (fun _ => none)
      "app.port" "42").1 rfl

/-- Witness for C8 at a concrete duplicate: adding a second element named
"port" fails with `ElementExists` naming it. -/
theorem c8_witness :
    wSection.addElement { name := "port", validator := joiAny } =
      .error (.elementExists "port") :=
  c8_name_uniqueness.2.2.2.2.1 wSection
    { name := "port", validator := joiAny } (by decide) (by decide)

/-- Witness for C9 (amended) at a concrete attached element whose provider
yields nothing: the stored default is returned. -/
theorem c9_witness :
    ({ name := "host", default := some (.vStr "x"), validator := joiAny,
        sectionName := some "db" } : Element).get (fun _ _ => none) =
      .ok (some (.vStr "x")) :=
  (c9_element_get_amended
    { name := "host", default := some (.vStr "x"), validator := joiAny,
      sectionName := some "db" } (fun _ _ => none)).2.2.2.1
    "db" (.vStr "x") rfl rfl rfl rfl

def wTrimElement : Element :=
  { name := "greeting", default := some (.vStr " hi "),
    validator := trimValidator }

def wSectionTrim : Section := { name := "app", elements := [wTrimElement] }

def wConfigTrim : ConfigBound :=
  { name := "test", binds := [], sections := [wSectionTrim] }

/-- Witness for C10 at a concrete element whose validator normalises its
(truthy) default: the lookup returns the original un-normalised default
even though the validator would trim it. -/
theorem c10_witness :
    wConfigTrim.get "app" "greeting" = .ok (some (.vStr " hi ")) ∧
    (trimValidator.validate (.vStr " hi ")).value = .vStr "hi" := by
  constructor
  · exact c10_default_returned_verbatim.2 wConfigTrim "app" "greeting"
      wSectionTrim wTrimElement (.vStr " hi ") rfl rfl
      (by intro x hx; cases hx) rfl
  · rfl

end CB
